import Mathlib

/-!
Verification of the C-type model, layout algorithm, bytecode compiler and
header-extraction pipeline of the `c_script_langauge` repository.

The Python sources are embedded shallowly:

* machine integers and Python `int` are modelled as `Int`
  (Python integers are unbounded);
* Python dictionaries are modelled as insertion-ordered association lists
  with an update-in-place-or-append insertion (`dictInsert`), matching
  CPython's ordered-dict semantics;
* raised exceptions are modelled with `Except PyError`;
* the process-global memoization dictionaries `_sizeof_cache`,
  `_alignof_cache` and `_offsets_cache` of `c_type.py` are threaded
  explicitly as a `Caches` value.  Mutations performed before an exception
  survive the exception, hence every stateful function returns the pair
  `(Except PyError α) × Caches` rather than `Except PyError (α × Caches)`;
* recursive stateful functions are written as single fuel-indexed
  interpreters (structural recursion on the fuel) so that every
  definition is executable and kernel-reducible; running out of fuel is a
  distinct error `PyError.fuelExhausted` that the original program cannot
  produce.
-/

/-- Python exception kinds raised by the embedded code.  `fuelExhausted` is
an artifact of the fuel-based embedding and corresponds to no Python
exception. -/
inductive PyError where
  | notImplementedError
  | valueError
  | assertionError
  | keyError
  | attributeError
  | typeError
  | zeroDivisionError
  | runtimeError
  | fuelExhausted
deriving DecidableEq, Repr

deriving instance DecidableEq for Except

/-- CPython dict assignment `m[k] = v`: updates the value in place if the
key is present (keeping its position), otherwise appends the new binding. -/
def dictInsert {κ α : Type} [DecidableEq κ] (m : List (κ × α)) (k : κ) (v : α) :
    List (κ × α) :=
  if m.any (fun p => p.1 = k) then
    m.map (fun p => if p.1 = k then (k, v) else p)
  else
    m ++ [(k, v)]

/-- Python's `%` on integers: floor-convention remainder (`Int.fmod`),
raising `ZeroDivisionError` on a zero divisor. -/
def pymod (a b : Int) : Except PyError Int :=
  if b = 0 then .error .zeroDivisionError else .ok (Int.fmod a b)

/-- The C type model of `c_type.py`.  Constructors keep the Python class
names.  `CIntegral`'s `unsigned` field is `Option Bool` because the source
default is `None`; `CEnum` and `CStruct`/`CUnion` names are optional as in
the source. -/
inductive CType where
  | CVoid
  | CSpecialType (name : String)
  | CIntegral (name : String) (unsigned : Option Bool)
  | CFloatingPoint (name : String)
  | COpaqueStruct (name : String)
  | CStruct (name : Option String) (decls : List (Option String × CType))
  | COpaqueUnion (name : String)
  | CUnion (name : Option String) (decls : List (Option String × CType))
  | CArray (base : CType) (dim : Option Int)
  | CEnum (name : Option String) (values : List (String × Int))
  | CFunc (args : List (Option String × CType)) (return_type : CType) (varargs : Bool)
  | CPointer (base : CType)
deriving Repr

open CType

mutual

/-- Structural boolean equality on `CType` (the `deriving` handler does not
support this nested inductive, so decidable equality is built by hand). -/
def beqCType : CType → CType → Bool
  | .CVoid, .CVoid => true
  | .CSpecialType n, .CSpecialType n' => n = n'
  | .CIntegral n u, .CIntegral n' u' => n = n' && u = u'
  | .CFloatingPoint n, .CFloatingPoint n' => n = n'
  | .COpaqueStruct n, .COpaqueStruct n' => n = n'
  | .CStruct n d, .CStruct n' d' => n = n' && beqCFields d d'
  | .COpaqueUnion n, .COpaqueUnion n' => n = n'
  | .CUnion n d, .CUnion n' d' => n = n' && beqCFields d d'
  | .CArray b d, .CArray b' d' => beqCType b b' && d = d'
  | .CEnum n v, .CEnum n' v' => n = n' && v = v'
  | .CFunc a r va, .CFunc a' r' va' => beqCFields a a' && beqCType r r' && va = va'
  | .CPointer b, .CPointer b' => beqCType b b'
  | _, _ => false

/-- Boolean equality on field lists, component of `beqCType`. -/
def beqCFields : List (Option String × CType) → List (Option String × CType) → Bool
  | [], [] => true
  | (n, t) :: r, (n', t') :: r' => n = n' && beqCType t t' && beqCFields r r'
  | _, _ => false

end

mutual

theorem beqCType_refl : ∀ a, beqCType a a = true
  | .CVoid => rfl
  | .CSpecialType _ => by simp [beqCType]
  | .CIntegral _ _ => by simp [beqCType]
  | .CFloatingPoint _ => by simp [beqCType]
  | .COpaqueStruct _ => by simp [beqCType]
  | .CStruct _ d => by simp [beqCType, beqCFields_refl d]
  | .COpaqueUnion _ => by simp [beqCType]
  | .CUnion _ d => by simp [beqCType, beqCFields_refl d]
  | .CArray b _ => by simp [beqCType, beqCType_refl b]
  | .CEnum _ _ => by simp [beqCType]
  | .CFunc a r _ => by simp [beqCType, beqCFields_refl a, beqCType_refl r]
  | .CPointer b => by simp [beqCType, beqCType_refl b]

theorem beqCFields_refl : ∀ a, beqCFields a a = true
  | [] => rfl
  | (_, t) :: r => by simp [beqCFields, beqCType_refl t, beqCFields_refl r]

end

mutual

theorem beqCType_sound : ∀ a b, beqCType a b = true → a = b
  | .CVoid, b, h => by cases b <;> simp_all [beqCType]
  | .CSpecialType _, b, h => by cases b <;> simp_all [beqCType]
  | .CIntegral _ _, b, h => by cases b <;> simp_all [beqCType]
  | .CFloatingPoint _, b, h => by cases b <;> simp_all [beqCType]
  | .COpaqueStruct _, b, h => by cases b <;> simp_all [beqCType]
  | .CStruct n d, b, h => by
      cases b <;> simp only [beqCType, Bool.and_eq_true, decide_eq_true_eq, Bool.false_eq_true] at h
      case CStruct n' d' =>
        obtain ⟨h1, h2⟩ := h
        rw [h1, beqCFields_sound d d' h2]
  | .COpaqueUnion _, b, h => by cases b <;> simp_all [beqCType]
  | .CUnion n d, b, h => by
      cases b <;> simp only [beqCType, Bool.and_eq_true, decide_eq_true_eq, Bool.false_eq_true] at h
      case CUnion n' d' =>
        obtain ⟨h1, h2⟩ := h
        rw [h1, beqCFields_sound d d' h2]
  | .CArray t d, b, h => by
      cases b <;> simp only [beqCType, Bool.and_eq_true, decide_eq_true_eq, Bool.false_eq_true] at h
      case CArray t' d' =>
        obtain ⟨h1, h2⟩ := h
        rw [h2, beqCType_sound t t' h1]
  | .CEnum _ _, b, h => by cases b <;> simp_all [beqCType]
  | .CFunc a r va, b, h => by
      cases b <;> simp only [beqCType, Bool.and_eq_true, decide_eq_true_eq, Bool.false_eq_true] at h
      case CFunc a' r' va' =>
        obtain ⟨⟨h1, h2⟩, h3⟩ := h
        rw [h3, beqCType_sound r r' h2, beqCFields_sound a a' h1]
  | .CPointer t, b, h => by
      cases b <;> simp only [beqCType, Bool.false_eq_true] at h
      case CPointer t' => rw [beqCType_sound t t' h]

theorem beqCFields_sound : ∀ a b, beqCFields a b = true → a = b
  | [], b, h => by cases b <;> simp_all [beqCFields]
  | (n, t) :: r, b, h => by
      cases b with
      | nil => simp [beqCFields] at h
      | cons p' r' =>
        obtain ⟨n', t'⟩ := p'
        simp only [beqCFields, Bool.and_eq_true, decide_eq_true_eq, Bool.false_eq_true] at h
        obtain ⟨⟨h1, h2⟩, h3⟩ := h
        rw [h1, beqCType_sound t t' h2, beqCFields_sound r r' h3]

end

instance : DecidableEq CType := fun a b =>
  decidable_of_iff (beqCType a b = true)
    ⟨beqCType_sound a b, fun h => h ▸ beqCType_refl a⟩

/-- `c_void = CVoid()` -/
def c_void : CType := CVoid

/-- `va_list = CSpecialType("va_list")` -/
def va_list : CType := CSpecialType "va_list"

def c_schar : CType := CIntegral "char" (some false)
def c_uchar : CType := CIntegral "char" (some true)
def c_sshort : CType := CIntegral "short" (some false)
def c_ushort : CType := CIntegral "short" (some true)
def c_sint : CType := CIntegral "int" (some false)
def c_uint : CType := CIntegral "int" (some true)
def c_slong : CType := CIntegral "long" (some false)
def c_ulong : CType := CIntegral "long" (some true)
def c_slong_long : CType := CIntegral "long long" (some false)
def c_ulong_long : CType := CIntegral "long long" (some true)
def c_float : CType := CFloatingPoint "float"
def c_double : CType := CFloatingPoint "double"
def c_long_double : CType := CFloatingPoint "long double"

/-- `c_void_p = CPointer(c_void)` -/
def c_void_p : CType := CPointer c_void

/-- `c_char_p = CPointer(c_uchar)` (the source really does use the
unsigned variant here). -/
def c_char_p : CType := CPointer c_uchar

/-- `CIntegral.full_name` -/
def full_name (name : String) (unsigned : Option Bool) : String :=
  match unsigned with
  | none => name
  | some false => "signed " ++ name
  | some true => "unsigned " ++ name

/-- The `_special_by_name` registry as populated at import time of
`c_type.py`: `"void"` maps to the `CVoid` singleton, then each
`CSpecialType`/`CIntegral`/`CFloatingPoint` constructed at module scope
registers itself (integral types under their `full_name`). -/
def special_by_name : List (String × CType) :=
  [("void", c_void), ("va_list", va_list),
   ("signed char", c_schar), ("unsigned char", c_uchar),
   ("signed short", c_sshort), ("unsigned short", c_ushort),
   ("signed int", c_sint), ("unsigned int", c_uint),
   ("signed long", c_slong), ("unsigned long", c_ulong),
   ("signed long long", c_slong_long), ("unsigned long long", c_ulong_long),
   ("float", c_float), ("double", c_double), ("long double", c_long_double)]

/-- The generic interchange document format (`utils.JSONData`): nested
maps, lists and primitives. -/
inductive JSONData where
  | str (s : String)
  | int (n : Int)
  | bool (b : Bool)
  | null
  | arr (items : List JSONData)
  | obj (entries : List (String × JSONData))
deriving Repr

/-- Python dictionary lookup on a JSON object (first binding of the key). -/
def jlookup (entries : List (String × JSONData)) (k : String) : Option JSONData :=
  entries.lookup k

/-- Encoding of an optional Python string (`None` becomes JSON null). -/
def optStrJSON : Option String → JSONData
  | none => .null
  | some s => .str s

/-- Request type of the fuel-indexed `to_json` interpreter: encode one type,
or encode a `(name, type)` declaration list (struct/union `decls` and
function `args` encode identically). -/
inductive TJIn where
  | ty (t : CType)
  | fields (l : List (Option String × CType))

/-- Result type of the `to_json` interpreter. -/
inductive TJRes where
  | one (d : JSONData)
  | many (l : List JSONData)

/-- Fuel-indexed interpreter for the `to_json` methods of every `CType`
subclass in `c_type.py`.  The short key strings are the `JSON_KEYS`
constants of the source (`"t"`, `"n"`, `"d"`, `"b"`, `"v"`, `"va"`, `"as"`,
`"s"`, `"os"`, `"u"`, `"ou"`, `"e"`, `"a"`, `"f"`, `"p"`).  The
`.typeError` lines are unreachable result-shape mismatches of the
embedding. -/
def tjRun : Nat → TJIn → Except PyError TJRes
  | 0, _ => .error .fuelExhausted
  | fuel+1, .ty t =>
    match t with
    | .CVoid => .ok (.one (.str "void"))
    | .CSpecialType n => .ok (.one (.str n))
    | .CIntegral n u => .ok (.one (.str (full_name n u)))
    | .CFloatingPoint n => .ok (.one (.str n))
    | .COpaqueStruct n => .ok (.one (.obj [("t", .str "os"), ("n", .str n)]))
    | .CStruct n d => do
        let .many items ← tjRun fuel (.fields d) | .error .typeError
        .ok (.one (.obj [("t", .str "s"), ("n", optStrJSON n), ("d", .arr items)]))
    | .COpaqueUnion n => .ok (.one (.obj [("t", .str "ou"), ("n", .str n)]))
    | .CUnion n d => do
        let .many items ← tjRun fuel (.fields d) | .error .typeError
        .ok (.one (.obj [("t", .str "u"), ("n", optStrJSON n), ("d", .arr items)]))
    | .CArray base dim => do
        let .one b ← tjRun fuel (.ty base) | .error .typeError
        .ok (.one (.obj [("t", .str "a"), ("b", b),
          ("v", match dim with | none => .null | some v => .int v)]))
    | .CEnum n values =>
        .ok (.one (.obj [("t", .str "e"), ("n", optStrJSON n),
          ("v", .obj (values.map (fun p => (p.1, JSONData.int p.2))))]))
    | .CFunc args ret varargs => do
        let .many items ← tjRun fuel (.fields args) | .error .typeError
        let .one r ← tjRun fuel (.ty ret) | .error .typeError
        .ok (.one (.obj [("t", .str "f"), ("va", .bool varargs),
          ("as", .arr items), ("v", r)]))
    | .CPointer base => do
        let .one b ← tjRun fuel (.ty base) | .error .typeError
        .ok (.one (.obj [("t", .str "p"), ("b", b)]))
  | fuel+1, .fields [] => .ok (.many [])
  | fuel+1, .fields ((n, t) :: rest) => do
      let .one d ← tjRun fuel (.ty t) | .error .typeError
      let .many ds ← tjRun fuel (.fields rest) | .error .typeError
      .ok (.many (.obj [("n", optStrJSON n), ("t", d)] :: ds))

/-- `CType.to_json` (fuel-indexed wrapper around `tjRun`). -/
def to_json (fuel : Nat) (t : CType) : Except PyError JSONData :=
  match tjRun fuel (.ty t) with
  | .ok (.one d) => .ok d
  | .ok (.many _) => .error .typeError
  | .error e => .error e

/-- Decode an encoded optional name.  A non-string, non-null name would
build an ill-typed Python value; the embedding reports it as a
`TypeError`.  Canonical encodings only ever place strings or `null`
here. -/
def jname : JSONData → Except PyError (Option String)
  | .null => .ok none
  | .str s => .ok (some s)
  | _ => .error .typeError

/-- Request type of the fuel-indexed `from_json` interpreter. -/
inductive FJIn where
  | one (d : JSONData)
  | fields (l : List JSONData)

/-- Result type of the `from_json` interpreter. -/
inductive FJRes where
  | one (t : CType)
  | fields (l : List (Option String × CType))

/-- Fuel-indexed interpreter for `c_type.from_json`.  The branch order
and the tag strings follow the source `match` statement; in particular the
`"ou"` (opaque union) tag is decoded to `COpaqueStruct`, exactly as in the
source (`c_type.py` line 344).  An unrecognized document raises
`NotImplementedError`. -/
def fjRun : Nat → FJIn → Except PyError FJRes
  | 0, _ => .error .fuelExhausted
  | fuel+1, .one d =>
    match d with
    | .str s =>
        match (special_by_name.lookup s) with
        | some t => .ok (.one t)
        | none => .error .notImplementedError
    | .obj entries =>
        match jlookup entries "t" with
        | some (.str tag) =>
          if tag = "os" then
            match jlookup entries "n" with
            | some (.str name) => .ok (.one (.COpaqueStruct name))
            | some _ => .error .typeError
            | none => .error .notImplementedError
          else if tag = "ou" then
            -- Source bug preserved: the opaque-union tag is decoded to a
            -- `COpaqueStruct`, not a `COpaqueUnion`.
            match jlookup entries "n" with
            | some (.str name) => .ok (.one (.COpaqueStruct name))
            | some _ => .error .typeError
            | none => .error .notImplementedError
          else if tag = "f" then
            match jlookup entries "va", jlookup entries "as", jlookup entries "v" with
            | some (.bool varargs), some (.arr args), some rt => do
                let .fields as' ← fjRun fuel (.fields args) | .error .typeError
                let .one r ← fjRun fuel (.one rt) | .error .typeError
                .ok (.one (.CFunc as' r varargs))
            | some _, some _, some _ => .error .typeError
            | _, _, _ => .error .notImplementedError
          else if tag = "p" then
            match jlookup entries "b" with
            | some b => do
                let .one base ← fjRun fuel (.one b) | .error .typeError
                .ok (.one (.CPointer base))
            | none => .error .notImplementedError
          else if tag = "s" then
            match jlookup entries "n", jlookup entries "d" with
            | some nj, some (.arr decls) => do
                let n ← jname nj
                let .fields ds ← fjRun fuel (.fields decls) | .error .typeError
                .ok (.one (.CStruct n ds))
            | some _, some _ => .error .typeError
            | _, _ => .error .notImplementedError
          else if tag = "u" then
            match jlookup entries "n", jlookup entries "d" with
            | some nj, some (.arr decls) => do
                let n ← jname nj
                let .fields ds ← fjRun fuel (.fields decls) | .error .typeError
                .ok (.one (.CUnion n ds))
            | some _, some _ => .error .typeError
            | _, _ => .error .notImplementedError
          else if tag = "e" then
            match jlookup entries "n", jlookup entries "v" with
            | some nj, some (.obj values) => do
                let n ← jname nj
                let vs ← values.mapM (fun p =>
                  match p.2 with
                  | JSONData.int v => Except.ok (p.1, v)
                  | _ => Except.error PyError.typeError)
                .ok (.one (.CEnum n vs))
            | some _, some _ => .error .typeError
            | _, _ => .error .notImplementedError
          else if tag = "a" then
            match jlookup entries "b", jlookup entries "v" with
            | some b, some dimj => do
                let .one base ← fjRun fuel (.one b) | .error .typeError
                let dim ← (match dimj with
                  | JSONData.null => Except.ok (none : Option Int)
                  | JSONData.int v => Except.ok (some v)
                  | _ => Except.error PyError.typeError)
                .ok (.one (.CArray base dim))
            | _, _ => .error .notImplementedError
          else .error .notImplementedError
        | _ => .error .notImplementedError
    | _ => .error .notImplementedError
  | fuel+1, .fields [] => .ok (.fields [])
  | fuel+1, .fields (d :: rest) =>
    match d with
    | .obj entries =>
        match jlookup entries "n", jlookup entries "t" with
        | some nj, some tj => do
            let n ← jname nj
            let .one t ← fjRun fuel (.one tj) | .error .typeError
            let .fields ts ← fjRun fuel (.fields rest) | .error .typeError
            .ok (.fields ((n, t) :: ts))
        | _, _ => .error .keyError
    | _ => .error .attributeError

/-- `c_type.from_json` (fuel-indexed wrapper around `fjRun`). -/
def from_json (fuel : Nat) (d : JSONData) : Except PyError CType :=
  match fjRun fuel (.one d) with
  | .ok (.one t) => .ok t
  | .ok (.fields _) => .error .typeError
  | .error e => .error e

/-- `c_type.get_from_names`: the fixed table mapping primitive type
spellings (token lists) to canonical types.  The patterns are exactly the
source's `match` alternatives; anything else raises
`NotImplementedError`. -/
def get_from_names : List String → Except PyError CType
  | ["__builtin_va_list"] => .ok va_list
  | ["void"] => .ok c_void
  | ["float"] => .ok c_float
  | ["double"] => .ok c_double
  | ["long", "double"] => .ok c_long_double
  | ["signed", "char"] | ["char"] => .ok c_schar
  | ["unsigned", "char"] => .ok c_uchar
  | ["signed", "short"] | ["short"]
  | ["signed", "short", "int"] | ["short", "int"] => .ok c_sshort
  | ["unsigned", "short"] | ["unsigned", "short", "int"] => .ok c_ushort
  | ["signed", "int"] | ["int"] => .ok c_sint
  | ["unsigned", "int"] | ["unsigned"] => .ok c_uint
  | ["signed", "long"] | ["long"]
  | ["signed", "long", "int"] | ["long", "int"] => .ok c_slong
  | ["unsigned", "long"] | ["unsigned", "long", "int"] => .ok c_ulong
  | ["long", "long"] | ["signed", "long", "long"]
  | ["long", "long", "int"] | ["signed", "long", "long", "int"] => .ok c_slong_long
  | ["unsigned", "long", "long"]
  | ["unsigned", "long", "long", "int"] => .ok c_ulong_long
  | _ => .error .notImplementedError

/-- The three process-global memoization dictionaries of `c_type.py`
(`_sizeof_cache`, `_alignof_cache`, `_offsets_cache`).  Note that all three
are keyed by the type alone; the packing width is not part of the key. -/
structure Caches where
  size : CType → Option Int
  align : CType → Option Int
  offs : CType → Option (List (String × Int))

def updSize (c : Caches) (t : CType) (v : Int) : Caches :=
  { c with size := fun u => if u = t then some v else c.size u }

def updAlign (c : Caches) (t : CType) (v : Int) : Caches :=
  { c with align := fun u => if u = t then some v else c.align u }

def updOffs (c : Caches) (t : CType) (m : List (String × Int)) : Caches :=
  { c with offs := fun u => if u = t then some m else c.offs u }

/-- The sizes and alignments that `ctypes` reports for the host's basic
integer types; `c_type.py` queries them once at import time to seed the
caches. -/
structure Host where
  char_size : Int
  char_align : Int
  short_size : Int
  short_align : Int
  int_size : Int
  int_align : Int
  long_size : Int
  long_align : Int
  llong_size : Int
  llong_align : Int

/-- A standard LP64 host (char 1/1, short 2/2, int 4/4, long 8/8,
long long 8/8). -/
def hostLP64 : Host := ⟨1, 1, 2, 2, 4, 4, 8, 8, 8, 8⟩

/-- The caches as seeded by the import-time loop of `c_type.py`: both the
signed and the unsigned variant of each basic integral type get the
host-reported size and alignment; the offsets cache starts empty. -/
def initCaches (h : Host) : Caches where
  size := fun t =>
    if t = c_schar ∨ t = c_uchar then some h.char_size
    else if t = c_sshort ∨ t = c_ushort then some h.short_size
    else if t = c_sint ∨ t = c_uint then some h.int_size
    else if t = c_slong ∨ t = c_ulong then some h.long_size
    else if t = c_slong_long ∨ t = c_ulong_long then some h.llong_size
    else none
  align := fun t =>
    if t = c_schar ∨ t = c_uchar then some h.char_align
    else if t = c_sshort ∨ t = c_ushort then some h.short_align
    else if t = c_sint ∨ t = c_uint then some h.int_align
    else if t = c_slong ∨ t = c_ulong then some h.long_align
    else if t = c_slong_long ∨ t = c_ulong_long then some h.llong_align
    else none
  offs := fun _ => none

/-- Requests of the fuel-indexed layout interpreter: the three public
entry points (`sizeof`, `alignof`, `offsetsof`) plus the struct-field loop
and the union-member loop of `sizeof`'s `CStruct`/`CUnion` branches,
carrying their running accumulators. -/
inductive LIn where
  | size (t : CType) (pack : Int)
  | align (t : CType) (pack : Int)
  | offs (t : CType) (pack : Int)
  | sfields (offset align : Int) (offsets : List (String × Int))
      (decls : List (Option String × CType)) (pack : Int)
  | umembers (size align : Int) (decls : List (Option String × CType)) (pack : Int)

/-- Results of the layout interpreter. -/
inductive LRes where
  | int (v : Int)
  | map (m : List (String × Int))
  | sacc (offset align : Int) (offsets : List (String × Int))
  | uacc (size align : Int)
deriving DecidableEq, Repr

/-- Fuel-indexed interpreter for `c_type.sizeof`, `alignof` and
`offsetsof`.  Every statement mirrors the source, including the mutation
order of the caches, the use of the default pack `8` for all nested
`sizeof`/`alignof`/`offsetsof` calls inside the `CStruct`/`CUnion`/`CArray`
branches, the post-write `assert size` of the union branch, and the cache
checks that happen before any computation (so cache hits consume no fuel).
The `.typeError` arms are unreachable result-shape mismatches of the
embedding. -/
def layout : Nat → LIn → Caches → (Except PyError LRes) × Caches
  | fuel, .size t pack, c =>
    match c.size t with
    | some v => (.ok (.int v), c)
    | none =>
      match fuel with
      | 0 => (.error .fuelExhausted, c)
      | fuel+1 =>
        match t with
        | .CStruct _ decls =>
          match layout fuel (.sfields 0 1 [] decls pack) c with
          | (.ok (.sacc offset align offsets), c1) =>
            (match pymod offset align with
             | .error e => (.error e, c1)
             | .ok err =>
               let offset := if err ≠ 0 then offset + (align - err) else offset
               let c2 := updAlign c1 t align
               let c3 := updOffs c2 t offsets
               let sz := if offset = 0 then 1 else offset
               (.ok (.int sz), updSize c3 t sz))
          | (.ok _, c1) => (.error .typeError, c1)
          | (.error e, c1) => (.error e, c1)
        | .CUnion _ decls =>
          match layout fuel (.umembers 0 1 decls pack) c with
          | (.ok (.uacc size align), c1) =>
            let c2 := updAlign c1 t align
            let c3 := updSize c2 t size
            if size = 0 then (.error .assertionError, c3) else (.ok (.int size), c3)
          | (.ok _, c1) => (.error .typeError, c1)
          | (.error e, c1) => (.error e, c1)
        | .CArray _ none => (.error .valueError, c)
        | .CArray base (some dim) =>
          match layout fuel (.align base 8) c with
          | (.ok (.int a), c1) =>
            let c2 := updAlign c1 t a
            (match layout fuel (.size base 8) c2 with
             | (.ok (.int s), c3) =>
               (match pymod s a with
                | .error e => (.error e, c3)
                | .ok r =>
                  if r ≠ 0 then (.error .valueError, c3)
                  else (.ok (.int (s * dim)), updSize c3 t (s * dim)))
             | (.ok _, c3) => (.error .typeError, c3)
             | (.error e, c3) => (.error e, c3))
          | (.ok _, c1) => (.error .typeError, c1)
          | (.error e, c1) => (.error e, c1)
        | _ => (.error .notImplementedError, c)
  | fuel, .align t pack, c =>
    match c.align t with
    | some a => (.ok (.int a), c)
    | none =>
      match fuel with
      | 0 => (.error .fuelExhausted, c)
      | fuel+1 =>
        match layout fuel (.size t pack) c with
        | (.error e, c1) => (.error e, c1)
        | (.ok _, c1) =>
          match c1.align t with
          | some a => (.ok (.int a), c1)
          | none => (.error .notImplementedError, c1)
  | fuel, .offs t pack, c =>
    match c.offs t with
    | some m => (.ok (.map m), c)
    | none =>
      match fuel with
      | 0 => (.error .fuelExhausted, c)
      | fuel+1 =>
        match layout fuel (.size t pack) c with
        | (.error e, c1) => (.error e, c1)
        | (.ok _, c1) =>
          match c1.offs t with
          | some m => (.ok (.map m), c1)
          | none => (.error .notImplementedError, c1)
  | _, .sfields offset align offsets [] _, c => (.ok (.sacc offset align offsets), c)
  | fuel, .sfields offset align offsets ((name, ty) :: rest) pack, c =>
    match fuel with
    | 0 => (.error .fuelExhausted, c)
    | fuel+1 =>
      match layout fuel (.size ty 8) c with
      | (.error e, c1) => (.error e, c1)
      | (.ok (.int e_s), c1) =>
        (match layout fuel (.align ty 8) c1 with
         | (.error e, c2) => (.error e, c2)
         | (.ok (.int al_ty), c2) =>
           let e_a := min pack al_ty
           let align' := if e_a > align then e_a else align
           (match pymod offset e_a with
            | .error e => (.error e, c2)
            | .ok err =>
              let offset' := if err ≠ 0 then offset + (e_a - err) else offset
              match name with
              | none =>
                (match ty with
                 | .CUnion _ _ | .CStruct _ _ =>
                   (match layout fuel (.offs ty 8) c2 with
                    | (.error e, c3) => (.error e, c3)
                    | (.ok (.map m), c3) =>
                      let offsets' := m.foldl
                        (fun acc p => dictInsert acc p.1 (offset' + p.2)) offsets
                      layout fuel (.sfields (offset' + e_s) align' offsets' rest pack) c3
                    | (.ok _, c3) => (.error .typeError, c3))
                 | _ => (.error .assertionError, c2))
              | some n =>
                layout fuel
                  (.sfields (offset' + e_s) align' (dictInsert offsets n offset') rest pack)
                  c2)
         | (.ok _, c2) => (.error .typeError, c2))
      | (.ok _, c1) => (.error .typeError, c1)
  | _, .umembers size align [] _, c => (.ok (.uacc size align), c)
  | fuel, .umembers size align ((_, ty) :: rest) pack, c =>
    match fuel with
    | 0 => (.error .fuelExhausted, c)
    | fuel+1 =>
      match layout fuel (.size ty 8) c with
      | (.error e, c1) => (.error e, c1)
      | (.ok (.int e_s), c1) =>
        (match layout fuel (.align ty 8) c1 with
         | (.error e, c2) => (.error e, c2)
         | (.ok (.int al_ty), c2) =>
           let e_a := min pack al_ty
           let align' := if e_a > align then e_a else align
           let size' := if e_s > size then e_s else size
           layout fuel (.umembers size' align' rest pack) c2
         | (.ok _, c2) => (.error .typeError, c2))
      | (.ok _, c1) => (.error .typeError, c1)

/-- `c_type.sizeof` (fuel-indexed wrapper around `layout`). -/
def sizeof (fuel : Nat) (c : Caches) (t : CType) (pack : Int) :
    (Except PyError Int) × Caches :=
  match layout fuel (.size t pack) c with
  | (.ok (.int v), c') => (.ok v, c')
  | (.ok _, c') => (.error .typeError, c')
  | (.error e, c') => (.error e, c')

/-- `c_type.alignof` (fuel-indexed wrapper around `layout`). -/
def alignof (fuel : Nat) (c : Caches) (t : CType) (pack : Int) :
    (Except PyError Int) × Caches :=
  match layout fuel (.align t pack) c with
  | (.ok (.int v), c') => (.ok v, c')
  | (.ok _, c') => (.error .typeError, c')
  | (.error e, c') => (.error e, c')

/-- `c_type.offsetsof` (fuel-indexed wrapper around `layout`). -/
def offsetsof (fuel : Nat) (c : Caches) (t : CType) (pack : Int) :
    (Except PyError (List (String × Int))) × Caches :=
  match layout fuel (.offs t pack) c with
  | (.ok (.map m), c') => (.ok m, c')
  | (.ok _, c') => (.error .typeError, c')
  | (.error e, c') => (.error e, c')

/-- `vm_bytecode.Instruction`: fixed name, one-byte opcode and operand
count. -/
structure Instruction where
  name : String
  id : Nat
  argc : Nat
deriving DecidableEq, Repr

/-- `vm_bytecode.AppliedInstruction`. -/
structure AppliedInstruction where
  ins : Instruction
  args : List Nat
deriving DecidableEq, Repr

/-- `Instruction.__call__`: asserts the opcode range, that every operand is
an integer in `0..255`, and that the operand count matches `argc`.
Operands are modelled as `Nat` (every value the compiler passes is a
length, an index or a type tag), so the `0 <=` halves of the source's
assertions hold trivially. -/
def Instruction.app (i : Instruction) (args : List Nat) :
    Except PyError AppliedInstruction :=
  if i.id ≤ 255 ∧ (∀ a ∈ args, a ≤ 255) ∧ args.length = i.argc then
    .ok ⟨i, args⟩
  else .error .assertionError

def LOAD_CONSTANT : Instruction := ⟨"LOAD_CONSTANT", 1, 1⟩
def DISCARD : Instruction := ⟨"DISCARD", 2, 1⟩
def START_CALL : Instruction := ⟨"START_CALL", 3, 2⟩
def ARGUMENT : Instruction := ⟨"ARGUMENT", 4, 2⟩
def CALL_FUNCTION : Instruction := ⟨"CALL_FUNCTION", 5, 2⟩
def CALL_VOID_FUNCTION : Instruction := ⟨"CALL_VOID_FUNCTION", 6, 1⟩
def CALL_VAR : Instruction := ⟨"CALL_VAR", 7, 3⟩
def CALL_VOID_VAR : Instruction := ⟨"CALL_VOID_VAR", 8, 2⟩

/-- `c_headers.CHeader` (the mutable per-instance function cache is not
part of value identity in the source and is not modelled). -/
structure CHeader where
  name : String
  know_dll : Option String
deriving DecidableEq, Repr

/-- `c_headers.CDeclFunction`. -/
structure CDeclFunction where
  name : String
  header : Option CHeader
  return_type : CType
  arguments : List (Option String × CType)
  varargs : Bool
deriving DecidableEq, Repr

/-- `vm_bytecode.StackState`. -/
structure StackState where
  types : List CType
  instructions : List AppliedInstruction
  max_size : Int
deriving DecidableEq, Repr

/-- Modelled from the spec: `BASE_TYPE_IDS` is imported by `compiler.py`
from `c_type` but is absent from the repository's `c_type.py`.  Per the
spec (§4.4, §4.5) it assigns a small tag to each base type, with every
pointer type collapsing to one canonical pointer tag.  The concrete
numeric values are unspecified; the table fixes an arbitrary enumeration
(no claim depends on the values, only on the lookup structure). -/
def BASE_TYPE_IDS : List (CType × Nat) :=
  [(c_void_p, 0), (c_void, 1), (c_schar, 2), (c_uchar, 3),
   (c_sshort, 4), (c_ushort, 5), (c_sint, 6), (c_uint, 7),
   (c_slong, 8), (c_ulong, 9), (c_slong_long, 10), (c_ulong_long, 11),
   (c_float, 12), (c_double, 13), (c_long_double, 14), (va_list, 15)]

/-- `Compiler._get_type_id`: pointers collapse to the void-pointer tag,
everything else is looked up directly (`KeyError` when absent). -/
def get_type_id (t : CType) : Except PyError Nat :=
  match t with
  | .CPointer _ =>
    match BASE_TYPE_IDS.lookup c_void_p with
    | some i => .ok i
    | none => .error .keyError
  | _ =>
    match BASE_TYPE_IDS.lookup t with
    | some i => .ok i
    | none => .error .keyError

/-- `Compiler._get_function`: interning of called declarations; first use
appends the declaration with the next index. -/
def get_function (functions : List (CDeclFunction × Nat)) (decl : CDeclFunction) :
    Nat × List (CDeclFunction × Nat) :=
  match functions.lookup decl with
  | some i => (i, functions)
  | none => (functions.length, functions ++ [(decl, functions.length)])

/-- The argument loop of `Compiler.call` (`compiler.py` lines 58-74): for
each argument `StackState`, assert it pushes exactly one operand,
type-check it against the declared parameter at its position (positions
past the declared parameters assert `decl.varargs`), append its
instructions plus an `ARGUMENT` instruction, and track the running and
maximal transient stack size.  The dead `arg_types` list of the source is
not carried (it is written and never read). -/
def callArgsLoop (decl : CDeclFunction) :
    Nat → Int → Int → List AppliedInstruction → List StackState →
    Except PyError (List AppliedInstruction × Int)
  | _, _, max_stack, instructions, [] => .ok (instructions, max_stack)
  | i, stack_size, max_stack, instructions, a :: rest => do
    if a.types.length ≠ 1 then .error .assertionError else
    match a.types with
    | [t] => do
      let stack_size := stack_size + a.max_size
      let max_stack := if stack_size > max_stack then stack_size else max_stack
      (if h : i < decl.arguments.length then
        (if t ≠ (decl.arguments.get ⟨i, h⟩).2 then Except.error PyError.assertionError
         else Except.ok ())
       else
        (if ¬decl.varargs then Except.error PyError.assertionError else Except.ok ()))
      let tid ← get_type_id t
      let argIns ← ARGUMENT.app [i, tid]
      let instructions := instructions ++ a.instructions ++ [argIns]
      let stack_size := stack_size - a.max_size + 1
      let max_stack := if stack_size > max_stack then stack_size else max_stack
      callArgsLoop decl (i + 1) stack_size max_stack instructions rest
    | _ => .error .assertionError

/-- `Compiler.call` (`compiler.py` lines 50-87): resolve the callee in the
definitions table (`KeyError` when unbound), intern it in the function
table, emit `START_CALL`, run the argument loop, then dispatch the closing
instruction on `(varargs, return_type)` exactly as the source's `match`
does — including the two-operand `CALL_VOID_VAR` emitted for non-void
non-variadic calls and the one-operand `CALL_VOID_VAR` attempted for void
variadic calls (which trips `Instruction.__call__`'s operand-count
assertion).  The function table is returned alongside the result because
its mutation precedes any failure. -/
def compilerCall (definitions : List (String × CDeclFunction))
    (functions : List (CDeclFunction × Nat)) (name : String)
    (args : List StackState) :
    (Except PyError StackState) × List (CDeclFunction × Nat) :=
  match definitions.lookup name with
  | none => (.error .keyError, functions)
  | some decl =>
    let (fi, functions') := get_function functions decl
    match START_CALL.app [fi, args.length] with
    | .error e => (.error e, functions')
    | .ok sc =>
      match callArgsLoop decl 0 1 1 [sc] args with
      | .error e => (.error e, functions')
      | .ok (instructions, max_stack) =>
        match decl.varargs, decl.return_type with
        | true, .CVoid =>
          (match CALL_VOID_VAR.app [args.length] with
           | .error e => (.error e, functions')
           | .ok ins => (.ok ⟨[], instructions ++ [ins], max_stack⟩, functions'))
        | false, .CVoid =>
          (match CALL_VOID_FUNCTION.app [args.length] with
           | .error e => (.error e, functions')
           | .ok ins => (.ok ⟨[], instructions ++ [ins], max_stack⟩, functions'))
        | true, t =>
          (match get_type_id decl.return_type with
           | .error e => (.error e, functions')
           | .ok rt =>
             match CALL_VAR.app [args.length, decl.arguments.length, rt] with
             | .error e => (.error e, functions')
             | .ok ins => (.ok ⟨[t], instructions ++ [ins], max_stack⟩, functions'))
        | false, t =>
          (match CALL_VOID_VAR.app [args.length, decl.arguments.length] with
           | .error e => (.error e, functions')
           | .ok ins => (.ok ⟨[t], instructions ++ [ins], max_stack⟩, functions'))

/-- `extract_headers.CMacro` (named `CMacroDecl` here). -/
structure CMacroDecl where
  name : String
  args : Option (List String)
  replacement : String
deriving DecidableEq, Repr

/-- `extract_headers.FullHeader`: one header's namespaces.  Python
dictionaries become insertion-ordered association lists. -/
structure FullHeader where
  name : String
  macros : List (String × CMacroDecl)
  functions : List (String × CType)
  variables' : List (String × CType)
  types : List (String × CType)
  structs : List (String × CType)
  unions : List (String × CType)
  enums : List (String × CType)
  enum_values : List (String × (Int × Option String))
deriving DecidableEq, Repr

/-- A freshly constructed `FullHeader(name)`. -/
def emptyHeader (name : String) : FullHeader :=
  ⟨name, [], [], [], [], [], [], [], []⟩

/-- Two's-complement wrap of an integer into a signed `bytes`-byte type,
as `ctypes.c_short`/`c_int`/`c_long` do. -/
def wrapSigned (bytes : Int) (v : Int) : Int :=
  let m := (2 : Int) ^ (8 * bytes).toNat
  let r := v.emod m
  if r ≥ m / 2 then r - m else r

/-- `c_type.cast` (named `cast'` to avoid the core library's `cast`).
The source matches `CSpecialType(ctypes=cty)`: only
`CIntegral` has the `ctypes` property, and it resolves
`getattr(ctypes, "c_" + name)` from the *base* name, so both signednesses
use the signed ctypes class and `"long long"` (no `c_long long`
attribute) makes the class pattern fail, landing in the
`NotImplementedError` default.  `ctypes.c_char(v)` accepts `0..255` and
yields a one-byte `bytes` value; the embedding renders it as that byte's
integer and renders an out-of-range argument as the `TypeError` the
`c_char` constructor raises.  No claim exercises this function. -/
def cast' (host : Host) (ty : CType) (val : Int) : Except PyError Int :=
  match ty with
  | .CIntegral name _ =>
    match name with
    | "char" => if 0 ≤ val ∧ val ≤ 255 then .ok val else .error .typeError
    | "short" => .ok (wrapSigned host.short_size val)
    | "int" => .ok (wrapSigned host.int_size val)
    | "long" => .ok (wrapSigned host.long_size val)
    | _ => .error .notImplementedError
  | _ => .error .notImplementedError

/-- The `pycparser`/`pycparserext` AST node shapes consumed by
`DeclarationExtraction` (`extract_headers.py`).  Only the attributes the
extractor reads are carried. -/
inductive CAst where
  | IdentifierType (names : List String)
  | TypeDecl (inner : CAst)
  | PtrDecl (base : CAst)
  | StructNode (name : Option String) (decls : Option (List CAst))
  | UnionNode (name : Option String) (decls : Option (List CAst))
  | EnumNode (name : Option String) (values : Option (List CAst))
  | Enumerator (name : String) (value : Option CAst)
  | ArrayDeclNode (base : CAst) (dim : Option CAst)
  | FuncDeclExt (params : Option (List CAst)) (ret : CAst)
  | Typename (name : Option String) (ty : CAst)
  | DeclNode (name : Option String) (ty : CAst)
  | EllipsisParam
  | Constant (typ : String) (value : Int)
  | CastNode (to_type : CAst) (expr : CAst)
  | UnaryOp (op : String) (expr : CAst)
  | BinaryOp (op : String) (left : CAst) (right : CAst)
  | ID (name : String)
deriving Repr

/-- The mutable state of a `DeclarationExtraction` run: the header being
populated plus the process-global layout caches used by
`get_value`'s `sizeof` branch. -/
structure ExtractSt where
  header : FullHeader
  caches : Caches

/-- Requests of the fuel-indexed extraction interpreter: `to_c_type` on one
node, the struct/union field-list comprehension, the parameter-list
comprehension (`handle_param`), `get_value`, and the enumerator loop with
its running counter. -/
inductive XIn where
  | toC (node : CAst)
  | fieldFold (decls : List CAst)
  | paramFold (params : List CAst)
  | value (node : CAst)
  | enumFold (running : Int) (acc : List (String × Int)) (ename : Option String)
      (es : List CAst)

/-- Results of the extraction interpreter. -/
inductive XRes where
  | ty (t : CType)
  | fields (l : List (Option String × CType))
  | int (v : Int)
  | enumAcc (acc : List (String × Int))
deriving DecidableEq, Repr

/-- Python `<<`/`>>`/`|` on unbounded integers: shifts by a negative count
raise `ValueError`; `>>` is an arithmetic (floor) shift; `|` uses
two's-complement semantics (`Int.lor`). -/
def pyShiftL (a b : Int) : Except PyError Int :=
  if b < 0 then .error .valueError else .ok (a * (2 : Int) ^ b.toNat)

def pyShiftR (a b : Int) : Except PyError Int :=
  if b < 0 then .error .valueError else .ok (Int.fdiv a ((2 : Int) ^ b.toNat))

/-- Fuel-indexed interpreter for `DeclarationExtraction.to_c_type`,
`handle_param` and `get_value` (`extract_headers.py` lines 136-258).
Branch order follows the source `match` statements; struct/union/enum
registration mirrors lines 194-245 exactly, including the
placeholder-replacement and the `assert`-equality consistency check.
Reading `.name`/`.type`/`.value` off a node shape that lacks them is the
`AttributeError` CPython would raise. -/
def xRun (host : Host) : Nat → XIn → ExtractSt → (Except PyError XRes) × ExtractSt
  | 0, _, st => (.error .fuelExhausted, st)
  | fuel+1, .toC node, st =>
    match node with
    | .IdentifierType [name] =>
      -- typedef namespace first, then the fixed primitive table
      (match st.header.types.lookup name with
       | some t => (.ok (.ty t), st)
       | none =>
         match get_from_names [name] with
         | .ok t => (.ok (.ty t), st)
         | .error e => (.error e, st))
    | .IdentifierType names =>
      (match get_from_names names with
       | .ok t => (.ok (.ty t), st)
       | .error e => (.error e, st))
    | .TypeDecl inner => xRun host fuel (.toC inner) st
    | .PtrDecl base =>
      (match xRun host fuel (.toC base) st with
       | (.ok (.ty t), st') => (.ok (.ty (.CPointer t)), st')
       | (.ok _, st') => (.error .typeError, st')
       | (.error e, st') => (.error e, st'))
    | .StructNode (some name) none =>
      let s := CType.COpaqueStruct name
      (match st.header.structs.lookup name with
       | none =>
         (.ok (.ty s),
          { st with header :=
              { st.header with structs := dictInsert st.header.structs name s } })
       | some _ => (.ok (.ty s), st))
    | .StructNode name (some decls) =>
      (match xRun host fuel (.fieldFold decls) st with
       | (.ok (.fields fs), st') =>
         let s := CType.CStruct name fs
         (match name with
          | none => (.ok (.ty s), st')
          | some nm =>
            match st'.header.structs.lookup nm with
            | none =>
              (.ok (.ty s),
               { st' with header :=
                   { st'.header with structs := dictInsert st'.header.structs nm s } })
            | some (.COpaqueStruct _) =>
              (.ok (.ty s),
               { st' with header :=
                   { st'.header with structs := dictInsert st'.header.structs nm s } })
            | some t => if t = s then (.ok (.ty s), st') else (.error .assertionError, st'))
       | (.ok _, st') => (.error .typeError, st')
       | (.error e, st') => (.error e, st'))
    | .UnionNode (some name) none =>
      let s := CType.COpaqueUnion name
      (match st.header.unions.lookup name with
       | none =>
         (.ok (.ty s),
          { st with header :=
              { st.header with unions := dictInsert st.header.unions name s } })
       | some _ => (.ok (.ty s), st))
    | .UnionNode name (some decls) =>
      (match xRun host fuel (.fieldFold decls) st with
       | (.ok (.fields fs), st') =>
         let s := CType.CUnion name fs
         (match name with
          | none => (.ok (.ty s), st')
          | some nm =>
            match st'.header.unions.lookup nm with
            | none =>
              (.ok (.ty s),
               { st' with header :=
                   { st'.header with unions := dictInsert st'.header.unions nm s } })
            | some (.COpaqueUnion _) =>
              (.ok (.ty s),
               { st' with header :=
                   { st'.header with unions := dictInsert st'.header.unions nm s } })
            | some t => if t = s then (.ok (.ty s), st') else (.error .assertionError, st'))
       | (.ok _, st') => (.error .typeError, st')
       | (.error e, st') => (.error e, st'))
    | .EnumNode name (some values) =>
      (match xRun host fuel (.enumFold 0 [] name values) st with
       | (.ok (.enumAcc out), st') =>
         let e := CType.CEnum name out
         (match name with
          | none => (.ok (.ty e), st')
          | some nm =>
            match st'.header.enums.lookup nm with
            | none =>
              (.ok (.ty e),
               { st' with header :=
                   { st'.header with enums := dictInsert st'.header.enums nm e } })
            | some t => if t = e then (.ok (.ty e), st') else (.error .assertionError, st'))
       | (.ok _, st') => (.error .typeError, st')
       | (.error e, st') => (.error e, st'))
    | .ArrayDeclNode base none =>
      (match xRun host fuel (.toC base) st with
       | (.ok (.ty t), st') => (.ok (.ty (.CArray t none)), st')
       | (.ok _, st') => (.error .typeError, st')
       | (.error e, st') => (.error e, st'))
    | .ArrayDeclNode base (some dimExpr) =>
      (match xRun host fuel (.toC base) st with
       | (.ok (.ty t), st') =>
         (match xRun host fuel (.value dimExpr) st' with
          | (.ok (.int v), st'') => (.ok (.ty (.CArray t (some v))), st'')
          | (.ok _, st'') => (.error .typeError, st'')
          | (.error e, st'') => (.error e, st''))
       | (.ok _, st') => (.error .typeError, st')
       | (.error e, st') => (.error e, st'))
    | .FuncDeclExt (some params) ret =>
      (match params.getLast? with
       | some .EllipsisParam =>
         (match xRun host fuel (.paramFold params.dropLast) st with
          | (.ok (.fields ps), st') =>
            (match xRun host fuel (.toC ret) st' with
             | (.ok (.ty rt), st'') => (.ok (.ty (.CFunc ps rt true)), st'')
             | (.ok _, st'') => (.error .typeError, st'')
             | (.error e, st'') => (.error e, st''))
          | (.ok _, st') => (.error .typeError, st')
          | (.error e, st') => (.error e, st'))
       | _ =>
         (match xRun host fuel (.paramFold params) st with
          | (.ok (.fields ps), st') =>
            (match xRun host fuel (.toC ret) st' with
             | (.ok (.ty rt), st'') => (.ok (.ty (.CFunc ps rt false)), st'')
             | (.ok _, st'') => (.error .typeError, st'')
             | (.error e, st'') => (.error e, st''))
          | (.ok _, st') => (.error .typeError, st')
          | (.error e, st') => (.error e, st')))
    | .FuncDeclExt none ret =>
      (match xRun host fuel (.toC ret) st with
       | (.ok (.ty rt), st') => (.ok (.ty (.CFunc [] rt false)), st')
       | (.ok _, st') => (.error .typeError, st')
       | (.error e, st') => (.error e, st'))
    | _ => (.error .notImplementedError, st)
  | _+1, .fieldFold [], st => (.ok (.fields []), st)
  | fuel+1, .fieldFold (d :: rest), st =>
    match d with
    | .DeclNode dn dt =>
      (match xRun host fuel (.toC dt) st with
       | (.ok (.ty t), st') =>
         (match xRun host fuel (.fieldFold rest) st' with
          | (.ok (.fields fs), st'') => (.ok (.fields ((dn, t) :: fs)), st'')
          | (.ok _, st'') => (.error .typeError, st'')
          | (.error e, st'') => (.error e, st''))
       | (.ok _, st') => (.error .typeError, st')
       | (.error e, st') => (.error e, st'))
    | _ => (.error .attributeError, st)
  | _+1, .paramFold [], st => (.ok (.fields []), st)
  | fuel+1, .paramFold (p :: rest), st =>
    match p with
    | .Typename none ty =>
      (match xRun host fuel (.toC ty) st with
       | (.ok (.ty t), st') =>
         (match xRun host fuel (.paramFold rest) st' with
          | (.ok (.fields fs), st'') => (.ok (.fields ((none, t) :: fs)), st'')
          | (.ok _, st'') => (.error .typeError, st'')
          | (.error e, st'') => (.error e, st''))
       | (.ok _, st') => (.error .typeError, st')
       | (.error e, st') => (.error e, st'))
    | .DeclNode n ty =>
      (match xRun host fuel (.toC ty) st with
       | (.ok (.ty t), st') =>
         (match xRun host fuel (.paramFold rest) st' with
          | (.ok (.fields fs), st'') => (.ok (.fields ((n, t) :: fs)), st'')
          | (.ok _, st'') => (.error .typeError, st'')
          | (.error e, st'') => (.error e, st''))
       | (.ok _, st') => (.error .typeError, st')
       | (.error e, st') => (.error e, st'))
    | _ => (.error .notImplementedError, st)
  | _+1, .enumFold _ acc _ [], st => (.ok (.enumAcc acc), st)
  | fuel+1, .enumFold running acc ename (e :: rest), st =>
    match e with
    | .Enumerator en ev =>
      (match (match ev with
              | none => ((.ok (.int running) : Except PyError XRes), st)
              | some expr => xRun host fuel (.value expr) st) with
       | (.ok (.int v), st') =>
         let ev' := dictInsert st'.header.enum_values en (v, ename)
         let st'' := { st' with header := { st'.header with enum_values := ev' } }
         xRun host fuel (.enumFold (v + 1) (dictInsert acc en v) ename rest) st''
       | (.ok _, st') => (.error .typeError, st')
       | (.error e, st') => (.error e, st'))
    | _ => (.error .attributeError, st)
  | fuel+1, .value node, st =>
    match node with
    | .Constant "int" v => (.ok (.int v), st)
    | .CastNode (.Typename _ ty) expr =>
      (match xRun host fuel (.value expr) st with
       | (.ok (.int v), st') =>
         (match xRun host fuel (.toC ty) st' with
          | (.ok (.ty t), st'') =>
            (match cast' host t v with
             | .ok r => (.ok (.int r), st'')
             | .error e => (.error e, st''))
          | (.ok _, st'') => (.error .typeError, st'')
          | (.error e, st'') => (.error e, st''))
       | (.ok _, st') => (.error .typeError, st')
       | (.error e, st') => (.error e, st'))
    | .UnaryOp "sizeof" (.Typename _ ty) =>
      (match xRun host fuel (.toC ty) st with
       | (.ok (.ty t), st') =>
         (match sizeof fuel st'.caches t 8 with
          | (.ok v, c') => (.ok (.int v), { st' with caches := c' })
          | (.error e, c') => (.error e, { st' with caches := c' }))
       | (.ok _, st') => (.error .typeError, st')
       | (.error e, st') => (.error e, st'))
    | .UnaryOp op expr =>
      (match xRun host fuel (.value expr) st with
       | (.ok (.int v), st') =>
         (match op with
          | "-" => (.ok (.int (-v)), st')
          | "+" => (.ok (.int v), st')
          | _ => (.error .notImplementedError, st'))
       | (.ok _, st') => (.error .typeError, st')
       | (.error e, st') => (.error e, st'))
    | .BinaryOp op l r =>
      (match xRun host fuel (.value l) st with
       | (.ok (.int lv), st') =>
         (match xRun host fuel (.value r) st' with
          | (.ok (.int rv), st'') =>
            (match op with
             | "+" => (.ok (.int (lv + rv)), st'')
             | ">>" =>
               (match pyShiftR lv rv with
                | .ok v => (.ok (.int v), st'')
                | .error e => (.error e, st''))
             | "<<" =>
               (match pyShiftL lv rv with
                | .ok v => (.ok (.int v), st'')
                | .error e => (.error e, st''))
             | "|" => (.ok (.int (Int.lor lv rv)), st'')
             | _ => (.error .notImplementedError, st''))
          | (.ok _, st'') => (.error .typeError, st'')
          | (.error e, st'') => (.error e, st''))
       | (.ok _, st') => (.error .typeError, st')
       | (.error e, st') => (.error e, st'))
    | .ID n =>
      (match st.header.enum_values.lookup n with
       | some (v, _) => (.ok (.int v), st)
       | none => (.error .notImplementedError, st))
    | _ => (.error .notImplementedError, st)

/-- `DeclarationExtraction.to_c_type` (wrapper around `xRun`). -/
def to_c_type (host : Host) (fuel : Nat) (st : ExtractSt) (node : CAst) :
    (Except PyError CType) × ExtractSt :=
  match xRun host fuel (.toC node) st with
  | (.ok (.ty t), st') => (.ok t, st')
  | (.ok _, st') => (.error .typeError, st')
  | (.error e, st') => (.error e, st')

/-- Characters the cache-file-name sanitizer keeps: the regex class
`[A-Za-z0-9.]` of `_cache_name`. -/
def isSafeChar (c : Char) : Bool := c.isAlpha || c.isDigit || c = '.'

/-- `re.sub('[^A-Za-z0-9.]+', '-', name)`: every maximal run of unsafe
characters collapses to a single `'-'`.  The boolean tracks whether the
previous character belonged to an unsafe run. -/
def sanitizeAux : Bool → List Char → List Char
  | _, [] => []
  | prevUnsafe, c :: rest =>
    if isSafeChar c then c :: sanitizeAux false rest
    else if prevUnsafe then sanitizeAux true rest
    else '-' :: sanitizeAux true rest

/-- `extract_headers._cache_name`: asserts the header name ends in `".h"`,
then builds `"{md5(name)}-{sanitized name}.json"`.  The MD5 hex digest is
an external hash; it is supplied as the function parameter `md5hex`
(no claim depends on its value). -/
def cache_name (md5hex : String → String) (name : String) : Except PyError String :=
  -- `name.endswith(".h")`, phrased over the character list so that it
  -- evaluates inside the kernel
  if List.isSuffixOf ".h".data name.data then
    .ok (md5hex name ++ "-" ++ String.mk (sanitizeAux false name.data) ++ ".json")
  else .error .assertionError

/-- Externally observable actions of one `extract_header` run, in
program order. -/
inductive ExtractStep where
  | cacheRead (file : String)
  | preprocess
  | parse
  | cacheWrite (file : String)
deriving DecidableEq, Repr

/-- The external world an `extract_header` run interacts with: the MD5
digest function, the cache directory, the C preprocessor and the native
declaration parser.  The post-parse store population is abstracted by
`extracted` — claim C10 depends only on the step ordering and the
cache-name guard, which are modelled from the source. -/
structure ExtractEnv where
  md5hex : String → String
  cacheExists : String → Bool
  cacheLoad : String → FullHeader
  cppOk : Bool
  parseOk : Bool
  extracted : FullHeader

/-- The tool-invoking tail of `extract_header` (`extract_headers.py` lines
327-357): preprocess twice (a launch failure raises `RuntimeError` at the
first invocation), parse the expanded text (a parse failure re-raises a
`ParseError`, modelled as `valueError`), walk the declarations and freeze
the store, then write the cache entry unless caching was bypassed. -/
def extractPipeline (env : ExtractEnv) (writeBack : Option String) :
    (Except PyError FullHeader) × List ExtractStep :=
  if env.cppOk = false then (.error .runtimeError, [.preprocess])
  else if env.parseOk = false then (.error .valueError, [.preprocess, .preprocess, .parse])
  else
    match writeBack with
    | some cn =>
      (.ok env.extracted, [.preprocess, .preprocess, .parse, .cacheWrite cn])
    | none => (.ok env.extracted, [.preprocess, .preprocess, .parse])

/-- `extract_headers.extract_header`: with caching enabled the cache file
name is computed first (its assertion firing before any tool invocation);
a cache hit loads and returns the stored header; otherwise the pipeline
runs and, with caching enabled, writes the result back under the same
name. -/
def extract_header (env : ExtractEnv) (header_name : String) (no_cache : Bool) :
    (Except PyError FullHeader) × List ExtractStep :=
  if no_cache = false then
    match cache_name env.md5hex header_name with
    | .error e => (.error e, [])
    | .ok cn =>
      if env.cacheExists cn then (.ok (env.cacheLoad cn), [.cacheRead cn])
      else extractPipeline env (some cn)
  else extractPipeline env none

/-! ### Shared concrete values used by several theorems -/

/-- The spec's example struct `{ char a; int b; }`. -/
def structCharInt : CType :=
  .CStruct (some "S") [(some "a", c_schar), (some "b", c_sint)]

/-- Declaration of `int puts(const char *)` as the built-in stdlib header
(`c_stdlib.py`) would produce it. -/
def declPuts : CDeclFunction :=
  ⟨"puts", some ⟨"stdio.h", some "%crt%"⟩, c_sint, [(some "s", c_char_p)], false⟩

/-- Declaration of the variadic `int printf(const char *, ...)`. -/
def declPrintf : CDeclFunction :=
  ⟨"printf", some ⟨"stdio.h", some "%crt%"⟩, c_sint, [(some "format", c_char_p)], true⟩

/-- A variadic declaration with `void` return type. -/
def declVoidVar : CDeclFunction :=
  ⟨"vv", some ⟨"stdio.h", some "%crt%"⟩, c_void, [(some "format", c_char_p)], true⟩

/-- The `StackState` a compiled string literal yields: one
pointer-to-char operand produced by a single `LOAD_CONSTANT`. -/
def argStr : StackState := ⟨[c_char_p], [⟨LOAD_CONSTANT, [0]⟩], 1⟩

/-- AST of the type `int` (as pycparser produces it). -/
def intNode : CAst := .TypeDecl (.IdentifierType ["int"])

/-- One field declaration list `{ int x; }`. -/
def fieldX : List CAst := [.DeclNode (some "x") intNode]

/-- AST of `struct S { int x; }`. -/
def structNodeS : CAst := .StructNode (some "S") (some fieldX)

/-- AST of `union S { int x; }`. -/
def unionNodeS : CAst := .UnionNode (some "S") (some fieldX)

/-- The translated `struct S { int x; }`. -/
def sTyS : CType := .CStruct (some "S") [(some "x", c_sint)]

/-- The translated `union S { int x; }`. -/
def uTyS : CType := .CUnion (some "S") [(some "x", c_sint)]

/-- A conflicting complete definition of `S` (different field name). -/
def sTyConf : CType := .CStruct (some "S") [(some "y", c_sint)]

/-- Extraction state over an empty header store. -/
def stEmpty : ExtractSt := ⟨emptyHeader "h.h", initCaches hostLP64⟩

/-- Extraction state whose store maps `S` to an opaque struct placeholder. -/
def stOpaqueS : ExtractSt :=
  ⟨{ emptyHeader "h.h" with structs := [("S", .COpaqueStruct "S")] }, initCaches hostLP64⟩

/-- Extraction state whose store already holds the complete `struct S`. -/
def stDoneS : ExtractSt :=
  ⟨{ emptyHeader "h.h" with structs := [("S", sTyS)] }, initCaches hostLP64⟩

/-- Extraction state whose store holds a conflicting complete `struct S`. -/
def stConfS : ExtractSt :=
  ⟨{ emptyHeader "h.h" with structs := [("S", sTyConf)] }, initCaches hostLP64⟩

/-- Cache-stability at a key whose size is already memoized: its size
entry survives with the same value and its align/offs entries are
untouched.  Every cache write in `layout` happens at the type the current
request computes, whose size entry is absent at that moment, so memoized
keys are never disturbed. -/
def Preserves (c c' : Caches) (k : CType) : Prop :=
  ∀ v, c.size k = some v →
    c'.size k = some v ∧ c'.align k = c.align k ∧ c'.offs k = c.offs k

mutual

/-- Structural size measure on `CType` (used only to bound which cache
keys a layout request can write: every write targets the requested type
or a type strictly inside it). -/
def tsize : CType → Nat
  | .CStruct _ d => 1 + fsize d
  | .CUnion _ d => 1 + fsize d
  | .CArray b _ => 1 + tsize b
  | .CFunc a r _ => 1 + fsize a + tsize r
  | .CPointer b => 1 + tsize b
  | _ => 1

/-- Structural size measure on field lists. -/
def fsize : List (Option String × CType) → Nat
  | [] => 0
  | (_, t) :: r => 1 + tsize t + fsize r

end

/-- Bound on the cache keys a request can write to. -/
def lbound : LIn → Nat
  | .size t _ => tsize t
  | .align t _ => tsize t
  | .offs t _ => tsize t
  | .sfields _ _ _ decls _ => fsize decls
  | .umembers _ _ decls _ => fsize decls

/-- All three cache entries at `k` agree between `c` and `c'`. -/
def SameAt (c c' : Caches) (k : CType) : Prop :=
  c'.size k = c.size k ∧ c'.align k = c.align k ∧ c'.offs k = c.offs k

/-- Spec-side description of the union-member walk: the list of
`(sizeof(member, 8), alignof(member, 8))` pairs, computed with the same
cache threading and fuel discipline as `layout`'s `.umembers` loop.  Used
to compare the source's accumulator loop against the spec's
"maximum member size / maximum effective member alignment" phrasing. -/
def memberLayouts : Nat → List (Option String × CType) → Caches →
    (Except PyError (List (Int × Int))) × Caches
  | _, [], c => (.ok [], c)
  | 0, _ :: _, c => (.error .fuelExhausted, c)
  | fuel+1, (_, ty) :: rest, c =>
    match layout fuel (.size ty 8) c with
    | (.error e, c1) => (.error e, c1)
    | (.ok (.int s), c1) =>
      (match layout fuel (.align ty 8) c1 with
       | (.error e, c2) => (.error e, c2)
       | (.ok (.int a), c2) =>
         (match memberLayouts fuel rest c2 with
          | (.error e, c3) => (.error e, c3)
          | (.ok l, c3) => (.ok ((s, a) :: l), c3))
       | (.ok _, c2) => (.error .typeError, c2))
    | (.ok _, c1) => (.error .typeError, c1)

/-- Per-field layout data of a struct's declaration list: for each field,
`(name, sizeof(ty, 8), alignof(ty, 8), offsetsof(ty, 8) for unnamed
aggregates)`, computed with the same cache threading and fuel discipline
as `layout`'s `.sfields` loop (unnamed non-aggregate fields fail the same
assertion). -/
def fieldLayouts : Nat → List (Option String × CType) → Caches →
    (Except PyError (List (Option String × Int × Int × List (String × Int)))) × Caches
  | _, [], c => (.ok [], c)
  | 0, _ :: _, c => (.error .fuelExhausted, c)
  | fuel+1, (name, ty) :: rest, c =>
    match layout fuel (.size ty 8) c with
    | (.error e, c1) => (.error e, c1)
    | (.ok (.int e_s), c1) =>
      (match layout fuel (.align ty 8) c1 with
       | (.error e, c2) => (.error e, c2)
       | (.ok (.int al_ty), c2) =>
         (match name with
          | none =>
            (match ty with
             | .CUnion _ _ | .CStruct _ _ =>
               (match layout fuel (.offs ty 8) c2 with
                | (.error e, c3) => (.error e, c3)
                | (.ok (.map m), c3) =>
                  (match fieldLayouts fuel rest c3 with
                   | (.error e, c4) => (.error e, c4)
                   | (.ok l, c4) => (.ok ((none, e_s, al_ty, m) :: l), c4))
                | (.ok _, c3) => (.error .typeError, c3))
             | _ => (.error .assertionError, c2))
          | some n =>
            (match fieldLayouts fuel rest c2 with
             | (.error e, c3) => (.error e, c3)
             | (.ok l, c3) => (.ok ((some n, e_s, al_ty, []) :: l), c3)))
       | (.ok _, c2) => (.error .typeError, c2))
    | (.ok _, c1) => (.error .typeError, c1)

/-- The aligned position a field receives when the running offset is
`off` and its type's alignment is `al_ty`: `off` rounded up to the next
multiple of `min pack al_ty` (the source's `err`/`offset +=` steps). -/
def placeOf (pack off al_ty : Int) : Int :=
  if Int.fmod off (min pack al_ty) ≠ 0
  then off + (min pack al_ty - Int.fmod off (min pack al_ty))
  else off

/-- Pure description of the struct-field walk: given the per-field data,
returns the list of field positions in declaration order together with
the final running offset, the accumulated maximum effective alignment,
and the offsets map (named fields inserted at their position, unnamed
aggregates contributing their own map translated by the position). -/
def structWalk (pack : Int) (off al : Int) (offs : List (String × Int)) :
    List (Option String × Int × Int × List (String × Int)) →
    List Int × Int × Int × List (String × Int)
  | [] => ([], off, al, offs)
  | (name, e_s, al_ty, m) :: l =>
    let place := placeOf pack off al_ty
    let al' := if min pack al_ty > al then min pack al_ty else al
    let offs' := match name with
      | some n => dictInsert offs n place
      | none => m.foldl (fun acc p => dictInsert acc p.1 (place + p.2)) offs
    let r := structWalk pack (place + e_s) al' offs' l
    (place :: r.1, r.2)

/-- The final size of a struct: the last offset rounded up to the
accumulated alignment, with a zero total forced to 1 (the source's tail
of the `CStruct` branch). -/
def structFinish (off al : Int) : Int :=
  let err := Int.fmod off al
  let off' := if err ≠ 0 then off + (al - err) else off
  if off' = 0 then 1 else off'

/-! ### Theorems for the claims -/

/-- C3: the claim states `from_json (to_json t) = t` for every `CType`
variant, including opaque unions.  The code violates it: `from_json`
decodes the opaque-union tag `"ou"` to a `COpaqueStruct` (a copy-paste
slip at `c_type.py` line 344, contradicting the spec's losslessness
contract and the encoder one class above).  This theorem evaluates the
embedded code at the failing input `COpaqueUnion "u"`: the encoder emits
the `"ou"` document, the decoder returns `COpaqueStruct "u"`, which
differs from the input. -/
theorem C3_opaque_union_roundtrip_bug :
    to_json 2 (CType.COpaqueUnion "u") =
      .ok (JSONData.obj [("t", .str "ou"), ("n", .str "u")]) ∧
    from_json 2 (JSONData.obj [("t", .str "ou"), ("n", .str "u")]) =
      .ok (CType.COpaqueStruct "u") ∧
    CType.COpaqueStruct "u" ≠ CType.COpaqueUnion "u" := by
  refine ⟨rfl, by decide, by decide⟩

/-- C8 counterexample: the claim states that every C-permitted reordering
of an integral spelling maps to the canonical type and that no legal
spelling is rejected.  `int unsigned` is a legal C spelling of
`unsigned int` (declaration specifiers may appear in any order,
C11 6.7.2), but the table raises `NotImplementedError` on it instead of
returning the canonical unsigned-int type. -/
theorem C8_counterexample :
    get_from_names ["int", "unsigned"] ≠ .ok c_uint ∧
    get_from_names ["int", "unsigned"] = .error .notImplementedError := by
  exact ⟨by decide, by decide⟩

/-- C8 amended: the table maps exactly the spellings enumerated in the
source (canonical token order, with the optional leading `signed`/
`unsigned` and optional trailing `int` alternatives the source lists) to
the canonical integral types; legal C reorderings outside that list, such
as `int unsigned` or `long unsigned long`, are rejected with
`NotImplementedError`. -/
theorem C8_amended :
    get_from_names ["__builtin_va_list"] = .ok va_list ∧
    get_from_names ["void"] = .ok c_void ∧
    get_from_names ["float"] = .ok c_float ∧
    get_from_names ["double"] = .ok c_double ∧
    get_from_names ["long", "double"] = .ok c_long_double ∧
    get_from_names ["signed", "char"] = .ok c_schar ∧
    get_from_names ["char"] = .ok c_schar ∧
    get_from_names ["unsigned", "char"] = .ok c_uchar ∧
    get_from_names ["signed", "short"] = .ok c_sshort ∧
    get_from_names ["short"] = .ok c_sshort ∧
    get_from_names ["signed", "short", "int"] = .ok c_sshort ∧
    get_from_names ["short", "int"] = .ok c_sshort ∧
    get_from_names ["unsigned", "short"] = .ok c_ushort ∧
    get_from_names ["unsigned", "short", "int"] = .ok c_ushort ∧
    get_from_names ["signed", "int"] = .ok c_sint ∧
    get_from_names ["int"] = .ok c_sint ∧
    get_from_names ["unsigned", "int"] = .ok c_uint ∧
    get_from_names ["unsigned"] = .ok c_uint ∧
    get_from_names ["signed", "long"] = .ok c_slong ∧
    get_from_names ["long"] = .ok c_slong ∧
    get_from_names ["signed", "long", "int"] = .ok c_slong ∧
    get_from_names ["long", "int"] = .ok c_slong ∧
    get_from_names ["unsigned", "long"] = .ok c_ulong ∧
    get_from_names ["unsigned", "long", "int"] = .ok c_ulong ∧
    get_from_names ["long", "long"] = .ok c_slong_long ∧
    get_from_names ["signed", "long", "long"] = .ok c_slong_long ∧
    get_from_names ["long", "long", "int"] = .ok c_slong_long ∧
    get_from_names ["signed", "long", "long", "int"] = .ok c_slong_long ∧
    get_from_names ["unsigned", "long", "long"] = .ok c_ulong_long ∧
    get_from_names ["unsigned", "long", "long", "int"] = .ok c_ulong_long ∧
    get_from_names ["int", "unsigned"] = .error .notImplementedError ∧
    get_from_names ["long", "unsigned", "long"] = .error .notImplementedError := by
  decide

/-- C2: the claim states the four-way `(varargs, return_type)` dispatch
with `CALL_VOID_VAR` for void variadic calls and a return-type-carrying
call form for every non-void call.  The code contradicts it (and the
spec's §4.4 contract, and `CALL_VOID_VAR`'s own two-operand signature):
a non-void *non-variadic* call emits `CALL_VOID_VAR(len(args),
len(decl.arguments))` — a void-variadic mnemonic with no return-type tag
(`CALL_FUNCTION` is defined but never used) — and a void *variadic* call
passes a single operand to the two-operand `CALL_VOID_VAR`, tripping
`Instruction.__call__`'s operand-count assertion instead of emitting
anything.  This theorem evaluates both failing inputs. -/
theorem C2_call_dispatch_bug :
    (compilerCall [("puts", declPuts)] [] "puts" [argStr]).1 =
      .ok ⟨[c_sint],
        [⟨START_CALL, [0, 1]⟩, ⟨LOAD_CONSTANT, [0]⟩, ⟨ARGUMENT, [0, 0]⟩,
         ⟨CALL_VOID_VAR, [1, 1]⟩], 2⟩ ∧
    (compilerCall [("vv", declVoidVar)] [] "vv" [argStr]).1 =
      .error .assertionError := by
  exact ⟨by decide, by decide⟩

/-- C7 counterexample: the claim states that calling a non-variadic
function with fewer arguments than declared is a type-check failure.  The
argument loop only checks the arguments that are present, so compiling
`puts()` (zero arguments against one declared parameter) succeeds and
emits a complete call sequence. -/
theorem C7_counterexample :
    (compilerCall [("puts", declPuts)] [] "puts" []).1 =
      .ok ⟨[c_sint], [⟨START_CALL, [0, 0]⟩, ⟨CALL_VOID_VAR, [0, 1]⟩], 1⟩ := by
  decide

/-- C6 counterexample: the claim states that `sizeof` is a pure function
of `(type, pack)` with memoization keyed per `(type, pack)`.  The caches
are keyed by the type alone: computing `{char a; int b;}` at pack 1 first
(size 5) makes a later pack-8 query return the cached 5 instead of the 8
a fresh pack-8 computation yields. -/
theorem C6_counterexample :
    (sizeof 20 (initCaches hostLP64) structCharInt 8).1 = .ok 8 ∧
    (sizeof 20 (initCaches hostLP64) structCharInt 1).1 = .ok 5 ∧
    (sizeof 20 (sizeof 20 (initCaches hostLP64) structCharInt 1).2 structCharInt 8).1 =
      .ok 5 ∧
    (5 : Int) ≠ 8 := by
  refine ⟨by decide, by decide, by decide, by decide⟩

/-- C10: extracting through the cached path computes the cache file name
first; its `assert name.endswith(".h")` fires for any other name before
the preprocessor or parser run (the step trace is empty), while a name
ending in `".h"` passes the guard and, on a cache hit, is served from the
cache file alone. -/
theorem C10_cache_name_guard :
    ∀ (env : ExtractEnv) (name : String),
      (¬ List.isSuffixOf ".h".data name.data →
        extract_header env name false = (.error .assertionError, [])) ∧
      (List.isSuffixOf ".h".data name.data →
        ∀ cn, cache_name env.md5hex name = .ok cn →
          env.cacheExists cn = true →
          extract_header env name false = (.ok (env.cacheLoad cn), [.cacheRead cn])) := by
  intro env name
  constructor
  · intro h
    simp only [extract_header, cache_name, if_neg h, if_pos rfl]
    simp [h]
  · intro h cn hcn hex
    simp only [extract_header, if_pos rfl]
    rw [hcn]
    simp [hex]

/-- C10 witness: the guard theorem applied at the concrete names
`"windows"` (rejected with an empty step trace) and `"windows.h"`
(served from the cache). -/
theorem C10_cache_name_guard_witness :
    extract_header ⟨fun _ => "HASH", fun _ => true, fun _ => emptyHeader "x.h",
        true, true, emptyHeader "x.h"⟩ "windows" false =
      (.error .assertionError, []) ∧
    extract_header ⟨fun _ => "HASH", fun _ => true, fun _ => emptyHeader "x.h",
        true, true, emptyHeader "x.h"⟩ "windows.h" false =
      (.ok (emptyHeader "x.h"), [.cacheRead "HASH-windows.h.json"]) := by
  constructor
  · exact (C10_cache_name_guard _ "windows").1 (by decide)
  · exact (C10_cache_name_guard _ "windows.h").2 (by decide)
      "HASH-windows.h.json" (by decide) rfl

/-- C9: translating a complete struct or union definition named `N`
stores the complete `CType` when the store has no entry for `N` or holds
an opaque placeholder; when the store already holds a complete definition,
an identical redefinition succeeds and leaves the store untouched, while a
structurally different one fails with the consistency `assert`
(`extract_headers.py` lines 200-228).  `st'` is the store state after the
field list has been translated (field translation itself may populate the
store), which is the state the source's registration code inspects. -/
theorem C9_redefinition_consistency :
    ∀ (host : Host) (fuel : Nat) (st st' : ExtractSt) (N : String)
      (decls : List CAst) (fs : List (Option String × CType)),
      xRun host fuel (.fieldFold decls) st = (.ok (.fields fs), st') →
      (((st'.header.structs.lookup N = none ∨
         ∃ m, st'.header.structs.lookup N = some (.COpaqueStruct m)) →
        to_c_type host (fuel+1) st (.StructNode (some N) (some decls)) =
          (.ok (.CStruct (some N) fs),
           { st' with header := { st'.header with
               structs := dictInsert st'.header.structs N (.CStruct (some N) fs) } })) ∧
       (∀ t, st'.header.structs.lookup N = some t →
          (∀ m, t ≠ .COpaqueStruct m) →
          (t = .CStruct (some N) fs →
            to_c_type host (fuel+1) st (.StructNode (some N) (some decls)) =
              (.ok (.CStruct (some N) fs), st')) ∧
          (t ≠ .CStruct (some N) fs →
            to_c_type host (fuel+1) st (.StructNode (some N) (some decls)) =
              (.error .assertionError, st')))) ∧
      (((st'.header.unions.lookup N = none ∨
         ∃ m, st'.header.unions.lookup N = some (.COpaqueUnion m)) →
        to_c_type host (fuel+1) st (.UnionNode (some N) (some decls)) =
          (.ok (.CUnion (some N) fs),
           { st' with header := { st'.header with
               unions := dictInsert st'.header.unions N (.CUnion (some N) fs) } })) ∧
       (∀ t, st'.header.unions.lookup N = some t →
          (∀ m, t ≠ .COpaqueUnion m) →
          (t = .CUnion (some N) fs →
            to_c_type host (fuel+1) st (.UnionNode (some N) (some decls)) =
              (.ok (.CUnion (some N) fs), st')) ∧
          (t ≠ .CUnion (some N) fs →
            to_c_type host (fuel+1) st (.UnionNode (some N) (some decls)) =
              (.error .assertionError, st')))) := by
  intro host fuel st st' N decls fs hf
  constructor
  · constructor
    · intro hcase
      simp only [to_c_type, xRun, hf]
      rcases hcase with h | ⟨m, h⟩ <;> rw [h]
    · intro t ht hnotop
      constructor
      · intro heq
        subst heq
        simp [to_c_type, xRun, hf, ht]
      · intro hne
        simp only [to_c_type, xRun, hf, ht]
        cases t <;>
          first
          | exact absurd rfl (hnotop _)
          | rw [if_neg hne]
  · constructor
    · intro hcase
      simp only [to_c_type, xRun, hf]
      rcases hcase with h | ⟨m, h⟩ <;> rw [h]
    · intro t ht hnotop
      constructor
      · intro heq
        subst heq
        simp [to_c_type, xRun, hf, ht]
      · intro hne
        simp only [to_c_type, xRun, hf, ht]
        cases t <;>
          first
          | exact absurd rfl (hnotop _)
          | rw [if_neg hne]

/-- C9 witness: the consistency theorem applied to `struct S { int x; }`
against an empty store (entry created), an opaque placeholder (replaced),
an identical complete entry (unchanged), a conflicting complete entry
(`AssertionError`), and to `union S { int x; }` against an empty store. -/
theorem C9_redefinition_consistency_witness :
    (to_c_type hostLP64 20 stEmpty structNodeS).1 = .ok sTyS ∧
    (to_c_type hostLP64 20 stEmpty structNodeS).2.header.structs = [("S", sTyS)] ∧
    (to_c_type hostLP64 20 stOpaqueS structNodeS).1 = .ok sTyS ∧
    (to_c_type hostLP64 20 stOpaqueS structNodeS).2.header.structs = [("S", sTyS)] ∧
    (to_c_type hostLP64 20 stDoneS structNodeS).1 = .ok sTyS ∧
    (to_c_type hostLP64 20 stConfS structNodeS).1 = .error .assertionError ∧
    (to_c_type hostLP64 20 stEmpty unionNodeS).1 = .ok uTyS ∧
    (to_c_type hostLP64 20 stEmpty unionNodeS).2.header.unions = [("S", uTyS)] := by
  have h1 : (xRun hostLP64 19 (XIn.fieldFold fieldX) stEmpty).1 =
      .ok (.fields [(some "x", c_sint)]) := by decide
  have hf1 : xRun hostLP64 19 (XIn.fieldFold fieldX) stEmpty =
      (.ok (.fields [(some "x", c_sint)]),
       (xRun hostLP64 19 (XIn.fieldFold fieldX) stEmpty).2) := by
    rw [← h1]
  have h2 : (xRun hostLP64 19 (XIn.fieldFold fieldX) stOpaqueS).1 =
      .ok (.fields [(some "x", c_sint)]) := by decide
  have hf2 : xRun hostLP64 19 (XIn.fieldFold fieldX) stOpaqueS =
      (.ok (.fields [(some "x", c_sint)]),
       (xRun hostLP64 19 (XIn.fieldFold fieldX) stOpaqueS).2) := by
    rw [← h2]
  have h3 : (xRun hostLP64 19 (XIn.fieldFold fieldX) stDoneS).1 =
      .ok (.fields [(some "x", c_sint)]) := by decide
  have hf3 : xRun hostLP64 19 (XIn.fieldFold fieldX) stDoneS =
      (.ok (.fields [(some "x", c_sint)]),
       (xRun hostLP64 19 (XIn.fieldFold fieldX) stDoneS).2) := by
    rw [← h3]
  have h4 : (xRun hostLP64 19 (XIn.fieldFold fieldX) stConfS).1 =
      .ok (.fields [(some "x", c_sint)]) := by decide
  have hf4 : xRun hostLP64 19 (XIn.fieldFold fieldX) stConfS =
      (.ok (.fields [(some "x", c_sint)]),
       (xRun hostLP64 19 (XIn.fieldFold fieldX) stConfS).2) := by
    rw [← h4]
  have H1 := (C9_redefinition_consistency hostLP64 19 stEmpty _ "S" fieldX _ hf1).1.1
    (Or.inl (by decide))
  have H2 := (C9_redefinition_consistency hostLP64 19 stOpaqueS _ "S" fieldX _ hf2).1.1
    (Or.inr ⟨"S", by decide⟩)
  have H3 := ((C9_redefinition_consistency hostLP64 19 stDoneS _ "S" fieldX _ hf3).1.2
    sTyS (by decide) (fun m => by simp [sTyS])).1 (by decide)
  have H4 := ((C9_redefinition_consistency hostLP64 19 stConfS _ "S" fieldX _ hf4).1.2
    sTyConf (by decide) (fun m => by simp [sTyConf])).2 (by decide)
  have H5 := (C9_redefinition_consistency hostLP64 19 stEmpty _ "S" fieldX _ hf1).2.1
    (Or.inl (by decide))
  refine ⟨?_, ?_, ?_, ?_, ?_, ?_, ?_, ?_⟩
  · show (to_c_type hostLP64 (19+1) stEmpty
        (CAst.StructNode (some "S") (some fieldX))).1 = .ok sTyS
    rw [H1]; exact rfl
  · show (to_c_type hostLP64 (19+1) stEmpty
        (CAst.StructNode (some "S") (some fieldX))).2.header.structs = [("S", sTyS)]
    rw [H1]; decide
  · show (to_c_type hostLP64 (19+1) stOpaqueS
        (CAst.StructNode (some "S") (some fieldX))).1 = .ok sTyS
    rw [H2]; exact rfl
  · show (to_c_type hostLP64 (19+1) stOpaqueS
        (CAst.StructNode (some "S") (some fieldX))).2.header.structs = [("S", sTyS)]
    rw [H2]; decide
  · show (to_c_type hostLP64 (19+1) stDoneS
        (CAst.StructNode (some "S") (some fieldX))).1 = .ok sTyS
    rw [H3]; exact rfl
  · show (to_c_type hostLP64 (19+1) stConfS
        (CAst.StructNode (some "S") (some fieldX))).1 = .error .assertionError
    rw [H4]
  · show (to_c_type hostLP64 (19+1) stEmpty
        (CAst.UnionNode (some "S") (some fieldX))).1 = .ok uTyS
    rw [H5]; exact rfl
  · show (to_c_type hostLP64 (19+1) stEmpty
        (CAst.UnionNode (some "S") (some fieldX))).2.header.unions = [("S", uTyS)]
    rw [H5]; decide


theorem callArgsLoop_ok :
    ∀ (decl : CDeclFunction) (args : List StackState) (i : Nat) (ss ms : Int)
      (ins : List AppliedInstruction),
      (∀ j (h : j < args.length), ∃ t tid,
          (args.get ⟨j, h⟩).types = [t] ∧ get_type_id t = .ok tid ∧ tid ≤ 255) →
      (∀ j (h : j < args.length) (h' : i + j < decl.arguments.length),
          (args.get ⟨j, h⟩).types = [(decl.arguments.get ⟨i + j, h'⟩).2]) →
      (∀ j, j < args.length → decl.arguments.length ≤ i + j → decl.varargs = true) →
      i + args.length ≤ 256 →
      ∃ out, callArgsLoop decl i ss ms ins args = .ok out := by
  intro decl args
  induction args with
  | nil => intro i ss ms ins _ _ _ _; exact ⟨(ins, ms), rfl⟩
  | cons a rest ih =>
    intro i ss ms ins h1 h2 h3 hb
    obtain ⟨t, tid, hts, htid, hle⟩ := h1 0 (by simp)
    simp only [List.get] at hts
    simp only [callArgsLoop, hts]
    rw [if_neg (by simp)]
    have hcheck : (if h : i < decl.arguments.length then
          if t ≠ (decl.arguments.get ⟨i, h⟩).2 then Except.error PyError.assertionError
          else Except.ok ()
        else if ¬decl.varargs = true then Except.error PyError.assertionError
          else Except.ok ()) = (Except.ok () : Except PyError Unit) := by
      by_cases hi : i < decl.arguments.length
      · rw [dif_pos hi]
        have h20 := h2 0 (by simp) (by simpa using hi)
        simp only [List.get] at h20
        rw [hts] at h20
        have ht : t = (decl.arguments.get ⟨i, hi⟩).2 := by
          simpa using h20
        rw [if_neg (by simp [ht])]
      · rw [dif_neg hi]
        rw [if_neg (by simp [h3 0 (by simp) (by omega)])]
    rw [hcheck]
    have hib : i ≤ 255 := by simp at hb; omega
    have happ : ARGUMENT.app [i, tid] = .ok ⟨ARGUMENT, [i, tid]⟩ := by
      simp only [Instruction.app, ARGUMENT]
      rw [if_pos]
      refine ⟨by omega, ?_, rfl⟩
      intro x hx
      simp at hx
      rcases hx with h | h <;> omega
    simp only [bind, Except.bind, pure, htid, happ]
    exact ih (i + 1) _ _ _
      (fun j hj => h1 (j + 1) (by simpa using Nat.succ_lt_succ hj))
      (fun j hj hj' => by
        have := h2 (j + 1) (by simpa using Nat.succ_lt_succ hj) (by omega)
        simpa [Nat.add_assoc, Nat.add_comm 1 j] using this)
      (fun j hj hge => h3 (j + 1) (by simpa using Nat.succ_lt_succ hj) (by omega))
      (by simp at hb ⊢; omega)

theorem callArgsLoop_extra_arg_err :
    ∀ (decl : CDeclFunction) (pre : List StackState) (a : StackState)
      (rest : List StackState) (i : Nat) (ss ms : Int) (ins : List AppliedInstruction),
      decl.varargs = false →
      (∀ j (h : j < pre.length), ∃ t tid,
          (pre.get ⟨j, h⟩).types = [t] ∧ get_type_id t = .ok tid ∧ tid ≤ 255) →
      (∀ j (h : j < pre.length) (h' : i + j < decl.arguments.length),
          (pre.get ⟨j, h⟩).types = [(decl.arguments.get ⟨i + j, h'⟩).2]) →
      i + pre.length = decl.arguments.length →
      a.types.length = 1 →
      i + pre.length ≤ 255 →
      callArgsLoop decl i ss ms ins (pre ++ a :: rest) = .error .assertionError := by
  intro decl pre
  induction pre with
  | nil =>
    intro a rest i ss ms ins hva h1 h2 hlen hat hb
    obtain ⟨t, hts⟩ := List.length_eq_one.mp hat
    simp only [List.nil_append, callArgsLoop, hts]
    rw [if_neg (by simp)]
    rw [dif_neg (by simp at hlen; omega)]
    rw [if_pos (by simp [hva])]
    simp [bind, Except.bind]
  | cons p pre' ih =>
    intro a rest i ss ms ins hva h1 h2 hlen hat hb
    obtain ⟨t, tid, hts, htid, hle⟩ := h1 0 (by simp)
    simp only [List.get] at hts
    simp only [List.cons_append, callArgsLoop, hts]
    rw [if_neg (by simp)]
    have hcheck : (if h : i < decl.arguments.length then
          if t ≠ (decl.arguments.get ⟨i, h⟩).2 then Except.error PyError.assertionError
          else Except.ok ()
        else if ¬decl.varargs = true then Except.error PyError.assertionError
          else Except.ok ()) = (Except.ok () : Except PyError Unit) := by
      have hi : i < decl.arguments.length := by simp at hlen; omega
      rw [dif_pos hi]
      have h20 := h2 0 (by simp) (by simpa using hi)
      simp only [List.get] at h20
      rw [hts] at h20
      have ht : t = (decl.arguments.get ⟨i, hi⟩).2 := by
        simpa using h20
      rw [if_neg (by simp [ht])]
    rw [hcheck]
    have hib : i ≤ 255 := by simp at hb; omega
    have happ : ARGUMENT.app [i, tid] = .ok ⟨ARGUMENT, [i, tid]⟩ := by
      simp only [Instruction.app, ARGUMENT]
      rw [if_pos]
      refine ⟨by omega, ?_, rfl⟩
      intro x hx
      simp at hx
      rcases hx with h | h <;> omega
    simp only [bind, Except.bind, pure, htid, happ]
    exact ih a rest (i + 1) _ _ _ hva
      (fun j hj => h1 (j + 1) (by simpa using Nat.succ_lt_succ hj))
      (fun j hj hj' => by
        have := h2 (j + 1) (by simpa using Nat.succ_lt_succ hj) (by omega)
        simpa [Nat.add_assoc, Nat.add_comm 1 j] using this)
      (by simp at hlen ⊢; omega)
      hat
      (by simp at hb ⊢; omega)

theorem C7_amended :
    ∀ (defs : List (String × CDeclFunction)) (fns : List (CDeclFunction × Nat))
      (name : String) (decl : CDeclFunction) (args : List StackState),
      defs.lookup name = some decl →
      (∀ j (h : j < args.length), ∃ t tid,
          (args.get ⟨j, h⟩).types = [t] ∧ get_type_id t = .ok tid ∧ tid ≤ 255) →
      (∀ j (h : j < args.length) (h' : j < decl.arguments.length),
          (args.get ⟨j, h⟩).types = [(decl.arguments.get ⟨j, h'⟩).2]) →
      args.length ≤ 255 →
      decl.arguments.length ≤ 255 →
      (get_function fns decl).1 ≤ 255 →
      ((decl.varargs = false → decl.arguments.length < args.length →
        (compilerCall defs fns name args).1 = .error .assertionError) ∧
       (decl.varargs = false → args.length < decl.arguments.length →
        ∃ st, (compilerCall defs fns name args).1 = .ok st) ∧
       (decl.varargs = true → decl.return_type ≠ .CVoid →
        ∀ rtid, get_type_id decl.return_type = .ok rtid → rtid ≤ 255 →
        ∃ st, (compilerCall defs fns name args).1 = .ok st)) := by
  intro defs fns name decl args hlook h1 h2 hargs hdecl hfi
  have hsc : START_CALL.app [(get_function fns decl).1, args.length] =
      .ok ⟨START_CALL, [(get_function fns decl).1, args.length]⟩ := by
    simp only [Instruction.app, START_CALL]
    rw [if_pos]
    refine ⟨by omega, ?_, rfl⟩
    intro x hx
    simp at hx
    rcases hx with h | h <;> omega
  refine ⟨?_, ?_, ?_⟩
  · intro hva hlt
    have hsplit := (List.take_append_drop decl.arguments.length args).symm
    rw [List.drop_eq_getElem_cons hlt] at hsplit
    have hpl : (args.take decl.arguments.length).length = decl.arguments.length := by
      simp; omega
    have herr := callArgsLoop_extra_arg_err decl (args.take decl.arguments.length)
      (args[decl.arguments.length]) (args.drop (decl.arguments.length + 1))
      0 1 1 [⟨START_CALL, [(get_function fns decl).1, args.length]⟩] hva
      (fun j hj => by
        have hj' : j < args.length := by simp at hj; omega
        have := h1 j hj'
        simpa [List.getElem_take'] using this)
      (fun j hj hj' => by
        have hja : j < args.length := by simp at hj; omega
        have := h2 j hja (by simpa using hj')
        simpa [List.getElem_take'] using this)
      (by rw [hpl]; omega)
      (by
        obtain ⟨t, tid, hts, _, _⟩ := h1 decl.arguments.length hlt
        simp only [List.get_eq_getElem] at hts
        rw [hts]
        rfl)
      (by rw [hpl]; omega)
    rw [← hsplit] at herr
    simp only [compilerCall, hlook, hsc]
    rw [herr]
  · intro hva hlt
    obtain ⟨out, hloop⟩ := callArgsLoop_ok decl args 0 1 1
      [⟨START_CALL, [(get_function fns decl).1, args.length]⟩]
      h1
      (fun j hj hj' => by simpa using h2 j hj (by omega))
      (fun j hj hge => absurd hge (by omega))
      (by omega)
    obtain ⟨ins', ms'⟩ := out
    have hcvf : CALL_VOID_FUNCTION.app [args.length] =
        .ok ⟨CALL_VOID_FUNCTION, [args.length]⟩ := by
      simp only [Instruction.app, CALL_VOID_FUNCTION]
      rw [if_pos]
      refine ⟨by omega, ?_, rfl⟩
      intro x hx
      simp at hx
      omega
    have hcvv : CALL_VOID_VAR.app [args.length, decl.arguments.length] =
        .ok ⟨CALL_VOID_VAR, [args.length, decl.arguments.length]⟩ := by
      simp only [Instruction.app, CALL_VOID_VAR]
      rw [if_pos]
      refine ⟨by omega, ?_, rfl⟩
      intro x hx
      simp at hx
      rcases hx with h | h <;> omega
    simp only [compilerCall, hlook, hsc, hloop, hva]
    cases decl.return_type <;> simp [hcvf, hcvv]
  · intro hva hrt rtid hrtid hrle
    obtain ⟨out, hloop⟩ := callArgsLoop_ok decl args 0 1 1
      [⟨START_CALL, [(get_function fns decl).1, args.length]⟩]
      h1
      (fun j hj hj' => by simpa using h2 j hj (by omega))
      (fun j hj hge => hva)
      (by omega)
    obtain ⟨ins', ms'⟩ := out
    have hcv : CALL_VAR.app [args.length, decl.arguments.length, rtid] =
        .ok ⟨CALL_VAR, [args.length, decl.arguments.length, rtid]⟩ := by
      simp only [Instruction.app, CALL_VAR]
      rw [if_pos]
      refine ⟨by omega, ?_, rfl⟩
      intro x hx
      simp at hx
      rcases hx with h | h | h <;> omega
    simp only [compilerCall, hlook, hsc, hloop, hva]
    cases hr : decl.return_type <;> rw [hr] at hrtid hrt <;>
      simp_all [hcv]

theorem C7_amended_witness :
    (compilerCall [("puts", declPuts)] [] "puts" [argStr, argStr]).1 =
      .error .assertionError ∧
    (∃ st, (compilerCall [("puts", declPuts)] [] "puts" []).1 = .ok st) ∧
    (∃ st, (compilerCall [("printf", declPrintf)] [] "printf" [argStr, argStr]).1 = .ok st) := by
  have hone : ∀ (l : List StackState), (∀ a ∈ l, a = argStr) →
      ∀ j (h : j < l.length), ∃ t tid,
        (l.get ⟨j, h⟩).types = [t] ∧ get_type_id t = .ok tid ∧ tid ≤ 255 := by
    intro l hl j h
    have := hl (l.get ⟨j, h⟩) (l.get_mem j h)
    exact ⟨c_char_p, 0, by rw [this]; decide, by decide, by decide⟩
  refine ⟨?_, ?_, ?_⟩
  · exact (C7_amended [("puts", declPuts)] [] "puts" declPuts [argStr, argStr]
      (by decide)
      (hone _ (by intro a ha; simp at ha; exact ha))
      (fun j h h' => by
        have hl1 : declPuts.arguments.length = 1 := by decide
        rw [hl1] at h'
        have hj : j = 0 := by omega
        subst hj
        rfl)
      (by decide) (by decide) (by decide)).1 rfl (by decide)
  · exact (C7_amended [("puts", declPuts)] [] "puts" declPuts []
      (by decide)
      (fun j h => absurd h (by simp))
      (fun j h h' => absurd h (by simp))
      (by decide) (by decide) (by decide)).2.1 rfl (by decide)
  · exact (C7_amended [("printf", declPrintf)] [] "printf" declPrintf [argStr, argStr]
      (by decide)
      (hone _ (by intro a ha; simp at ha; exact ha))
      (fun j h h' => by
        have hl1 : declPrintf.arguments.length = 1 := by decide
        rw [hl1] at h'
        have hj : j = 0 := by omega
        subst hj
        rfl)
      (by decide) (by decide) (by decide)).2.2 rfl (by decide) 6 (by decide) (by decide)


theorem Preserves.refl (c : Caches) (k : CType) : Preserves c c k :=
  fun v h => ⟨h, rfl, rfl⟩

theorem Preserves.trans {c1 c2 c3 : Caches} {k : CType}
    (h12 : Preserves c1 c2 k) (h23 : Preserves c2 c3 k) : Preserves c1 c3 k := by
  intro v h
  obtain ⟨hs, ha, ho⟩ := h12 v h
  obtain ⟨hs', ha', ho'⟩ := h23 v hs
  exact ⟨hs', ha'.trans ha, ho'.trans ho⟩

theorem preservesUpdSize {c : Caches} {t k : CType} {w : Int} (hne : c.size t = none) :
    Preserves c (updSize c t w) k := by
  intro v h
  have hk : k ≠ t := fun he => by rw [he, hne] at h; exact Option.noConfusion h
  simp [updSize, hk, h]

theorem preservesUpdAlign {c : Caches} {t k : CType} {w : Int} (hne : c.size t = none) :
    Preserves c (updAlign c t w) k := by
  intro v h
  have hk : k ≠ t := fun he => by rw [he, hne] at h; exact Option.noConfusion h
  simp [updAlign, hk, h]

theorem preservesUpdOffs {c : Caches} {t k : CType} {m : List (String × Int)}
    (hne : c.size t = none) : Preserves c (updOffs c t m) k := by
  intro v h
  have hk : k ≠ t := fun he => by rw [he, hne] at h; exact Option.noConfusion h
  simp [updOffs, hk, h]

theorem layout_preserves :
    ∀ (fuel : Nat) (inp : LIn) (c : Caches) (k : CType),
      Preserves c (layout fuel inp c).2 k := by
  intro fuel
  induction fuel with
  | zero =>
    intro inp c k
    rcases inp with ⟨t, p⟩ | ⟨t, p⟩ | ⟨t, p⟩ | ⟨o, a, os, decls, p⟩ | ⟨sz, a, decls, p⟩
    · cases hc : c.size t <;> simp only [layout, hc] <;> exact Preserves.refl c k
    · cases hc : c.align t <;> simp only [layout, hc] <;> exact Preserves.refl c k
    · cases hc : c.offs t <;> simp only [layout, hc] <;> exact Preserves.refl c k
    · cases decls <;> simp only [layout] <;> exact Preserves.refl c k
    · cases decls <;> simp only [layout] <;> exact Preserves.refl c k
  | succ fuel ih =>
    intro inp c k
    rcases inp with ⟨t, p⟩ | ⟨t, p⟩ | ⟨t, p⟩ | ⟨o, a, os, decls, p⟩ | ⟨sz, a, decls, p⟩
    · -- size request
      cases hc : c.size t with
      | some v =>
        cases t with
        | CArray b dm => cases dm <;> simp only [layout, hc] <;> exact Preserves.refl c k
        | _ => simp only [layout, hc]; exact Preserves.refl c k
      | none =>
        cases t with
        | CStruct nm decls =>
          simp only [layout, hc]
          rcases hr : layout fuel (LIn.sfields 0 1 [] decls p) c with ⟨res, c1⟩
          have hP : Preserves c c1 k := by
            have := ih (LIn.sfields 0 1 [] decls p) c k
            rw [hr] at this
            exact this
          cases res with
          | error e => exact hP
          | ok r =>
            cases r with
            | sacc o al os =>
              cases hm : pymod o al with
              | error e => simp only [hm]; exact hP
              | ok err =>
                simp only [hm]
                intro v hv
                have hk : k ≠ CStruct nm decls := fun he => by
                  rw [he, hc] at hv
                  exact Option.noConfusion hv
                obtain ⟨hs1, ha1, ho1⟩ := hP v hv
                refine ⟨?_, ?_, ?_⟩ <;>
                  simp [updSize, updAlign, updOffs, hk, hs1, ha1, ho1]
            | int w => exact hP
            | map m => exact hP
            | uacc x y => exact hP
        | CUnion nm decls =>
          simp only [layout, hc]
          rcases hr : layout fuel (LIn.umembers 0 1 decls p) c with ⟨res, c1⟩
          have hP : Preserves c c1 k := by
            have := ih (LIn.umembers 0 1 decls p) c k
            rw [hr] at this
            exact this
          cases res with
          | error e => exact hP
          | ok r =>
            cases r with
            | uacc usz ual =>
              intro v hv
              have hk : k ≠ CUnion nm decls := fun he => by
                rw [he, hc] at hv
                exact Option.noConfusion hv
              obtain ⟨hs1, ha1, ho1⟩ := hP v hv
              by_cases hz : usz = 0 <;>
                simp [hz, updSize, updAlign, hk, hs1, ha1, ho1]
            | int w => exact hP
            | map m => exact hP
            | sacc x y z => exact hP
        | CArray base dim =>
          cases dim with
          | none => simp only [layout, hc]; exact Preserves.refl c k
          | some d =>
            simp only [layout, hc]
            rcases hr : layout fuel (LIn.align base 8) c with ⟨res, c1⟩
            have hP1 : Preserves c c1 k := by
              have := ih (LIn.align base 8) c k
              rw [hr] at this
              exact this
            cases res with
            | error e => exact hP1
            | ok r =>
              cases r with
              | int av =>
                dsimp only
                intro v hv
                have hk : k ≠ CArray base (some d) := fun he => by
                  rw [he, hc] at hv
                  exact Option.noConfusion hv
                obtain ⟨hs1, ha1, ho1⟩ := hP1 v hv
                have hs1' : (updAlign c1 (CArray base (some d)) av).size k = some v := by
                  simp [updAlign, hs1]
                rcases hr2 : layout fuel (LIn.size base 8)
                    (updAlign c1 (CArray base (some d)) av) with ⟨res2, c3⟩
                have hP2 : Preserves (updAlign c1 (CArray base (some d)) av) c3 k := by
                  have := ih (LIn.size base 8) (updAlign c1 (CArray base (some d)) av) k
                  rw [hr2] at this
                  exact this
                obtain ⟨hs3, ha3, ho3⟩ := hP2 v hs1'
                have ha3' : c3.align k = c1.align k := by
                  rw [ha3]; simp [updAlign, hk]
                have ho3' : c3.offs k = c1.offs k := by
                  rw [ho3]; simp [updAlign]
                cases res2 with
                | error e => exact ⟨hs3, ha3'.trans ha1, ho3'.trans ho1⟩
                | ok r2 =>
                  cases r2 with
                  | int s =>
                    cases hm : pymod s av with
                    | error e =>
                      simp only [hm]
                      exact ⟨hs3, ha3'.trans ha1, ho3'.trans ho1⟩
                    | ok rr =>
                      simp only [hm]
                      by_cases hrr : rr = 0
                      · rw [if_neg (by simpa using hrr)]
                        refine ⟨?_, ?_, ?_⟩ <;>
                          simp [updSize, hk, hs3, ha3'.trans ha1, ho3'.trans ho1]
                      · rw [if_pos hrr]
                        exact ⟨hs3, ha3'.trans ha1, ho3'.trans ho1⟩
                  | map m => exact ⟨hs3, ha3'.trans ha1, ho3'.trans ho1⟩
                  | sacc x y z => exact ⟨hs3, ha3'.trans ha1, ho3'.trans ho1⟩
                  | uacc x y => exact ⟨hs3, ha3'.trans ha1, ho3'.trans ho1⟩
              | map m => exact hP1
              | sacc x y z => exact hP1
              | uacc x y => exact hP1
        | CVoid => simp only [layout, hc]; exact Preserves.refl c k
        | CSpecialType n => simp only [layout, hc]; exact Preserves.refl c k
        | CIntegral n u => simp only [layout, hc]; exact Preserves.refl c k
        | CFloatingPoint n => simp only [layout, hc]; exact Preserves.refl c k
        | COpaqueStruct n => simp only [layout, hc]; exact Preserves.refl c k
        | COpaqueUnion n => simp only [layout, hc]; exact Preserves.refl c k
        | CEnum n vs => simp only [layout, hc]; exact Preserves.refl c k
        | CFunc a r va => simp only [layout, hc]; exact Preserves.refl c k
        | CPointer b => simp only [layout, hc]; exact Preserves.refl c k
    · -- align request
      cases hca : c.align t with
      | some a0 => simp only [layout, hca]; exact Preserves.refl c k
      | none =>
        simp only [layout, hca]
        rcases hr : layout fuel (LIn.size t p) c with ⟨res, c1⟩
        have hP : Preserves c c1 k := by
          have := ih (LIn.size t p) c k
          rw [hr] at this
          exact this
        cases res with
        | error e => exact hP
        | ok r => cases hc1 : c1.align t <;> simp only [hc1] <;> exact hP
    · -- offs request
      cases hco : c.offs t with
      | some m => simp only [layout, hco]; exact Preserves.refl c k
      | none =>
        simp only [layout, hco]
        rcases hr : layout fuel (LIn.size t p) c with ⟨res, c1⟩
        have hP : Preserves c c1 k := by
          have := ih (LIn.size t p) c k
          rw [hr] at this
          exact this
        cases res with
        | error e => exact hP
        | ok r => cases hc1 : c1.offs t <;> simp only [hc1] <;> exact hP
    · -- sfields
      cases decls with
      | nil => simp only [layout]; exact Preserves.refl c k
      | cons hd rest =>
        obtain ⟨name, ty⟩ := hd
        simp only [layout]
        rcases h1 : layout fuel (LIn.size ty 8) c with ⟨r1, c1⟩
        have hP1 : Preserves c c1 k := by
          have := ih (LIn.size ty 8) c k
          rw [h1] at this
          exact this
        cases r1 with
        | error e => exact hP1
        | ok rr1 =>
          cases rr1 with
          | int e_s =>
            dsimp only
            rcases h2 : layout fuel (LIn.align ty 8) c1 with ⟨r2, c2⟩
            have hP2 : Preserves c c2 k := by
              have := ih (LIn.align ty 8) c1 k
              rw [h2] at this
              exact hP1.trans this
            cases r2 with
            | error e => exact hP2
            | ok rr2 =>
              cases rr2 with
              | int al_ty =>
                dsimp only
                cases hm : pymod o (min p al_ty) with
                | error e => simp only [hm]; exact hP2
                | ok err =>
                  simp only [hm]
                  cases name with
                  | some n => exact hP2.trans (ih _ c2 k)
                  | none =>
                    cases ty with
                    | CUnion unm uds =>
                      rcases h3 : layout fuel (LIn.offs (CUnion unm uds) 8) c2 with ⟨r3, c3⟩
                      have hP3 : Preserves c c3 k := by
                        have := ih (LIn.offs (CUnion unm uds) 8) c2 k
                        rw [h3] at this
                        exact hP2.trans this
                      cases r3 with
                      | error e => exact hP3
                      | ok rr3 =>
                        cases rr3 with
                        | map m => exact hP3.trans (ih _ c3 k)
                        | int w => exact hP3
                        | sacc x y z => exact hP3
                        | uacc x y => exact hP3
                    | CStruct snm sds =>
                      rcases h3 : layout fuel (LIn.offs (CStruct snm sds) 8) c2 with ⟨r3, c3⟩
                      have hP3 : Preserves c c3 k := by
                        have := ih (LIn.offs (CStruct snm sds) 8) c2 k
                        rw [h3] at this
                        exact hP2.trans this
                      cases r3 with
                      | error e => exact hP3
                      | ok rr3 =>
                        cases rr3 with
                        | map m => exact hP3.trans (ih _ c3 k)
                        | int w => exact hP3
                        | sacc x y z => exact hP3
                        | uacc x y => exact hP3
                    | CVoid => exact hP2
                    | CSpecialType n2 => exact hP2
                    | CIntegral n2 u2 => exact hP2
                    | CFloatingPoint n2 => exact hP2
                    | COpaqueStruct n2 => exact hP2
                    | COpaqueUnion n2 => exact hP2
                    | CArray b2 d2 => exact hP2
                    | CEnum n2 v2 => exact hP2
                    | CFunc a2 r2 va2 => exact hP2
                    | CPointer b2 => exact hP2
              | map m => exact hP2
              | sacc x y z => exact hP2
              | uacc x y => exact hP2
          | map m => exact hP1
          | sacc x y z => exact hP1
          | uacc x y => exact hP1
    · -- umembers
      cases decls with
      | nil => simp only [layout]; exact Preserves.refl c k
      | cons hd rest =>
        obtain ⟨name, ty⟩ := hd
        simp only [layout]
        rcases h1 : layout fuel (LIn.size ty 8) c with ⟨r1, c1⟩
        have hP1 : Preserves c c1 k := by
          have := ih (LIn.size ty 8) c k
          rw [h1] at this
          exact this
        cases r1 with
        | error e => exact hP1
        | ok rr1 =>
          cases rr1 with
          | int e_s =>
            dsimp only
            rcases h2 : layout fuel (LIn.align ty 8) c1 with ⟨r2, c2⟩
            have hP2 : Preserves c c2 k := by
              have := ih (LIn.align ty 8) c1 k
              rw [h2] at this
              exact hP1.trans this
            cases r2 with
            | error e => exact hP2
            | ok rr2 =>
              cases rr2 with
              | int al_ty => exact hP2.trans (ih _ c2 k)
              | map m => exact hP2
              | sacc x y z => exact hP2
              | uacc x y => exact hP2
          | map m => exact hP1
          | sacc x y z => exact hP1
          | uacc x y => exact hP1

/-- A memoized size is returned unchanged, with no cache mutation and no
fuel consumed. -/
theorem layout_size_hit (fuel : Nat) (t : CType) (p : Int) (c : Caches) (v : Int)
    (h : c.size t = some v) : layout fuel (.size t p) c = (.ok (.int v), c) := by
  cases fuel with
  | zero => simp only [layout, h]
  | succ fuel =>
    cases t with
    | CArray b dm => cases dm <;> simp only [layout, h]
    | _ => simp only [layout, h]

/-- A memoized alignment is returned unchanged. -/
theorem layout_align_hit (fuel : Nat) (t : CType) (p : Int) (c : Caches) (a : Int)
    (h : c.align t = some a) : layout fuel (.align t p) c = (.ok (.int a), c) := by
  cases fuel <;> simp only [layout, h]

/-- A memoized offsets map is returned unchanged. -/
theorem layout_offs_hit (fuel : Nat) (t : CType) (p : Int) (c : Caches)
    (m : List (String × Int))
    (h : c.offs t = some m) : layout fuel (.offs t p) c = (.ok (.map m), c) := by
  cases fuel <;> simp only [layout, h]

/-- A successful `sizeof` leaves the computed size in the cache. -/
theorem layout_size_ok_cached (fuel : Nat) (t : CType) (p : Int) (c : Caches)
    (v : Int) (c' : Caches)
    (h : layout fuel (.size t p) c = (.ok (.int v), c')) : c'.size t = some v := by
  cases hc : c.size t with
  | some w =>
    rw [layout_size_hit fuel t p c w hc] at h
    simp only [Prod.mk.injEq, Except.ok.injEq, LRes.int.injEq] at h
    obtain ⟨hv, hc'⟩ := h
    rw [← hc', ← hv]
    exact hc
  | none =>
    cases fuel with
    | zero => simp only [layout] at h; rw [hc] at h; simp at h
    | succ fuel =>
      cases t with
      | CStruct nm decls =>
        simp only [layout] at h; rw [hc] at h; dsimp only at h
        rcases hr : layout fuel (LIn.sfields 0 1 [] decls p) c with ⟨res, c1⟩
        rw [hr] at h
        cases res with
        | error e => simp at h
        | ok r =>
          cases r with
          | sacc o al os =>
            dsimp only at h
            cases hm : pymod o al with
            | error e2 => rw [hm] at h; simp at h
            | ok err =>
              rw [hm] at h
              simp only [Prod.mk.injEq, Except.ok.injEq, LRes.int.injEq] at h
              obtain ⟨hv, hc'⟩ := h
              have hv' : (if (if err = 0 then o else o + (al - err)) = 0 then 1
                  else if err = 0 then o else o + (al - err)) = v := by
                by_cases he : err = 0 <;> simp [he] at hv ⊢ <;> exact hv
              rw [← hc']
              simp [updSize, hv']
          | int w => simp at h
          | map m => simp at h
          | uacc x y => simp at h
      | CUnion nm decls =>
        simp only [layout] at h; rw [hc] at h; dsimp only at h
        rcases hr : layout fuel (LIn.umembers 0 1 decls p) c with ⟨res, c1⟩
        rw [hr] at h
        cases res with
        | error e => simp at h
        | ok r =>
          cases r with
          | uacc usz ual =>
            dsimp only at h
            by_cases hz : usz = 0
            · rw [if_pos hz] at h; simp at h
            · rw [if_neg hz] at h
              simp only [Prod.mk.injEq, Except.ok.injEq, LRes.int.injEq] at h
              obtain ⟨hv, hc'⟩ := h
              rw [← hc']
              simp [updSize, updAlign, hv]
          | int w => simp at h
          | map m => simp at h
          | sacc x y z => simp at h
      | CArray base dim =>
        cases dim with
        | none => simp only [layout] at h; rw [hc] at h; simp at h
        | some d =>
          simp only [layout] at h; rw [hc] at h; dsimp only at h
          rcases hr : layout fuel (LIn.align base 8) c with ⟨res, c1⟩
          rw [hr] at h
          cases res with
          | error e => simp at h
          | ok r =>
            cases r with
            | int av =>
              dsimp only at h
              rcases hr2 : layout fuel (LIn.size base 8)
                  (updAlign c1 (CArray base (some d)) av) with ⟨res2, c3⟩
              rw [hr2] at h
              cases res2 with
              | error e => simp at h
              | ok r2 =>
                cases r2 with
                | int s =>
                  dsimp only at h
                  cases hm : pymod s av with
                  | error e2 => rw [hm] at h; simp at h
                  | ok rr =>
                    rw [hm] at h
                    dsimp only at h
                    by_cases hrr : rr = 0
                    · rw [if_neg (by simpa using hrr)] at h
                      simp only [Prod.mk.injEq, Except.ok.injEq, LRes.int.injEq] at h
                      obtain ⟨hv, hc'⟩ := h
                      rw [← hc']
                      simp [updSize, hv]
                    · rw [if_pos hrr] at h; simp at h
                | map m => simp at h
                | sacc x y z => simp at h
                | uacc x y => simp at h
            | map m => simp at h
            | sacc x y z => simp at h
            | uacc x y => simp at h
      | CVoid => simp only [layout] at h; rw [hc] at h; dsimp only at h; simp at h
      | CSpecialType n => simp only [layout] at h; rw [hc] at h; dsimp only at h; simp at h
      | CIntegral n u => simp only [layout] at h; rw [hc] at h; dsimp only at h; simp at h
      | CFloatingPoint n => simp only [layout] at h; rw [hc] at h; dsimp only at h; simp at h
      | COpaqueStruct n => simp only [layout] at h; rw [hc] at h; dsimp only at h; simp at h
      | COpaqueUnion n => simp only [layout] at h; rw [hc] at h; dsimp only at h; simp at h
      | CEnum n vs => simp only [layout] at h; rw [hc] at h; dsimp only at h; simp at h
      | CFunc a r va => simp only [layout] at h; rw [hc] at h; dsimp only at h; simp at h
      | CPointer b => simp only [layout] at h; rw [hc] at h; dsimp only at h; simp at h

/-- A successful `alignof` answers from the alignment cache of its final
state. -/
theorem layout_align_ok_cached (fuel : Nat) (t : CType) (p : Int) (c : Caches)
    (a : Int) (c' : Caches)
    (h : layout fuel (.align t p) c = (.ok (.int a), c')) : c'.align t = some a := by
  cases hc : c.align t with
  | some w =>
    rw [layout_align_hit fuel t p c w hc] at h
    simp only [Prod.mk.injEq, Except.ok.injEq, LRes.int.injEq] at h
    obtain ⟨hv, hc'⟩ := h
    rw [← hc', ← hv]
    exact hc
  | none =>
    cases fuel with
    | zero => simp only [layout] at h; rw [hc] at h; simp at h
    | succ fuel =>
      simp only [layout] at h; rw [hc] at h; dsimp only at h
      rcases hr : layout fuel (LIn.size t p) c with ⟨res, c1⟩
      rw [hr] at h
      cases res with
      | error e => simp at h
      | ok r =>
        dsimp only at h
        cases hc1 : c1.align t with
        | some a2 =>
          rw [hc1] at h
          simp only [Prod.mk.injEq, Except.ok.injEq, LRes.int.injEq] at h
          obtain ⟨hv, hc'⟩ := h
          rw [← hc', ← hv]
          exact hc1
        | none => rw [hc1] at h; simp at h

/-- A successful `offsetsof` answers from the offsets cache of its final
state. -/
theorem layout_offs_ok_cached (fuel : Nat) (t : CType) (p : Int) (c : Caches)
    (m : List (String × Int)) (c' : Caches)
    (h : layout fuel (.offs t p) c = (.ok (.map m), c')) : c'.offs t = some m := by
  cases hc : c.offs t with
  | some w =>
    rw [layout_offs_hit fuel t p c w hc] at h
    simp only [Prod.mk.injEq, Except.ok.injEq, LRes.map.injEq] at h
    obtain ⟨hv, hc'⟩ := h
    rw [← hc', ← hv]
    exact hc
  | none =>
    cases fuel with
    | zero => simp only [layout] at h; rw [hc] at h; simp at h
    | succ fuel =>
      simp only [layout] at h; rw [hc] at h; dsimp only at h
      rcases hr : layout fuel (LIn.size t p) c with ⟨res, c1⟩
      rw [hr] at h
      cases res with
      | error e => simp at h
      | ok r =>
        dsimp only at h
        cases hc1 : c1.offs t with
        | some m2 =>
          rw [hc1] at h
          simp only [Prod.mk.injEq, Except.ok.injEq, LRes.map.injEq] at h
          obtain ⟨hv, hc'⟩ := h
          rw [← hc', ← hv]
          exact hc1
        | none => rw [hc1] at h; simp at h

/-- C6 amended: the caches are keyed by the type alone, so once any of
`sizeof(t, p1)`, `alignof(t, p1)` or `offsetsof(t, p1)` has succeeded, a
later call of the same query on `t` — for every packing `p2` and any
amount of fuel — returns the first result and leaves the caches
untouched. -/
theorem C6_amended :
    (∀ (fuel fuel2 : Nat) (c : Caches) (t : CType) (p1 p2 v : Int) (c' : Caches),
      sizeof fuel c t p1 = (.ok v, c') →
      sizeof fuel2 c' t p2 = (.ok v, c')) ∧
    (∀ (fuel fuel2 : Nat) (c : Caches) (t : CType) (p1 p2 a : Int) (c' : Caches),
      alignof fuel c t p1 = (.ok a, c') →
      alignof fuel2 c' t p2 = (.ok a, c')) ∧
    (∀ (fuel fuel2 : Nat) (c : Caches) (t : CType) (p1 p2 : Int)
      (m : List (String × Int)) (c' : Caches),
      offsetsof fuel c t p1 = (.ok m, c') →
      offsetsof fuel2 c' t p2 = (.ok m, c')) := by
  refine ⟨?_, ?_, ?_⟩
  · intro fuel fuel2 c t p1 p2 v c' h
    simp only [sizeof] at h
    rcases hr : layout fuel (LIn.size t p1) c with ⟨res, c0⟩
    rw [hr] at h
    cases res with
    | error e => simp at h
    | ok r =>
      cases r with
      | int w =>
        simp only [Prod.mk.injEq, Except.ok.injEq] at h
        obtain ⟨hv, hc'⟩ := h
        rw [hv, hc'] at hr
        have hcache := layout_size_ok_cached fuel t p1 c v c' hr
        simp only [sizeof]
        rw [layout_size_hit fuel2 t p2 c' v hcache]
      | map m => simp at h
      | sacc x y z => simp at h
      | uacc x y => simp at h
  · intro fuel fuel2 c t p1 p2 a c' h
    simp only [alignof] at h
    rcases hr : layout fuel (LIn.align t p1) c with ⟨res, c0⟩
    rw [hr] at h
    cases res with
    | error e => simp at h
    | ok r =>
      cases r with
      | int w =>
        simp only [Prod.mk.injEq, Except.ok.injEq] at h
        obtain ⟨hv, hc'⟩ := h
        rw [hv, hc'] at hr
        have hcache := layout_align_ok_cached fuel t p1 c a c' hr
        simp only [alignof]
        rw [layout_align_hit fuel2 t p2 c' a hcache]
      | map m => simp at h
      | sacc x y z => simp at h
      | uacc x y => simp at h
  · intro fuel fuel2 c t p1 p2 m c' h
    simp only [offsetsof] at h
    rcases hr : layout fuel (LIn.offs t p1) c with ⟨res, c0⟩
    rw [hr] at h
    cases res with
    | error e => simp at h
    | ok r =>
      cases r with
      | map w =>
        simp only [Prod.mk.injEq, Except.ok.injEq] at h
        obtain ⟨hv, hc'⟩ := h
        rw [hv, hc'] at hr
        have hcache := layout_offs_ok_cached fuel t p1 c m c' hr
        simp only [offsetsof]
        rw [layout_offs_hit fuel2 t p2 c' m hcache]
      | int w => simp at h
      | sacc x y z => simp at h
      | uacc x y => simp at h

/-- C6 amended witness: computing `{char a; int b;}` at pack 1 caches
size 5, alignment 1 and offsets `a = 0, b = 1`; re-querying each of
`sizeof`, `alignof` and `offsetsof` at pack 8 returns those first
results, via the amended theorem. -/
theorem C6_amended_witness :
    (sizeof 20 (sizeof 20 (initCaches hostLP64) structCharInt 1).2 structCharInt 8).1 =
      .ok 5 ∧
    (alignof 20 (sizeof 20 (initCaches hostLP64) structCharInt 1).2 structCharInt 8).1 =
      .ok 1 ∧
    (offsetsof 20 (sizeof 20 (initCaches hostLP64) structCharInt 1).2 structCharInt 8).1 =
      .ok [("a", 0), ("b", 1)] := by
  refine ⟨?_, ?_, ?_⟩
  · have h1 : (sizeof 20 (initCaches hostLP64) structCharInt 1).1 = .ok 5 := by decide
    have h : sizeof 20 (initCaches hostLP64) structCharInt 1 =
        (.ok 5, (sizeof 20 (initCaches hostLP64) structCharInt 1).2) := by
      rw [← h1]
    have h2 := C6_amended.1 20 20 (initCaches hostLP64) structCharInt 1 8 5 _ h
    rw [h2]
  · have ha : alignof 0 (sizeof 20 (initCaches hostLP64) structCharInt 1).2
        structCharInt 5 =
        (.ok 1, (sizeof 20 (initCaches hostLP64) structCharInt 1).2) := rfl
    have h2 := C6_amended.2.1 0 20
      (sizeof 20 (initCaches hostLP64) structCharInt 1).2 structCharInt 5 8 1 _ ha
    rw [h2]
  · have ho : offsetsof 0 (sizeof 20 (initCaches hostLP64) structCharInt 1).2
        structCharInt 5 =
        (.ok [("a", 0), ("b", 1)],
         (sizeof 20 (initCaches hostLP64) structCharInt 1).2) := rfl
    have h2 := C6_amended.2.2 0 20
      (sizeof 20 (initCaches hostLP64) structCharInt 1).2 structCharInt 5 8
      [("a", 0), ("b", 1)] _ ho
    rw [h2]

theorem sameAt_refl (c : Caches) (k : CType) : SameAt c c k := ⟨rfl, rfl, rfl⟩

theorem sameAt_trans {c1 c2 c3 : Caches} {k : CType}
    (h12 : SameAt c1 c2 k) (h23 : SameAt c2 c3 k) : SameAt c1 c3 k :=
  ⟨h23.1.trans h12.1, h23.2.1.trans h12.2.1, h23.2.2.trans h12.2.2⟩

theorem sameAt_updSize {c : Caches} {t k : CType} {w : Int} (hk : k ≠ t) :
    SameAt c (updSize c t w) k := by
  refine ⟨?_, rfl, rfl⟩
  simp [updSize, hk]

theorem sameAt_updAlign {c : Caches} {t k : CType} {w : Int} (hk : k ≠ t) :
    SameAt c (updAlign c t w) k := by
  refine ⟨rfl, ?_, rfl⟩
  simp [updAlign, hk]

theorem sameAt_updOffs {c : Caches} {t k : CType} {m : List (String × Int)}
    (hk : k ≠ t) : SameAt c (updOffs c t m) k := by
  refine ⟨rfl, rfl, ?_⟩
  simp [updOffs, hk]

/-- Locality of the layout interpreter: a request writes only cache keys
structurally no larger than the type(s) it concerns, so every strictly
larger key keeps all three of its entries. -/
theorem layout_local :
    ∀ (fuel : Nat) (inp : LIn) (c : Caches) (k : CType),
      lbound inp < tsize k →
      SameAt c (layout fuel inp c).2 k := by
  intro fuel
  induction fuel with
  | zero =>
    intro inp c k _
    rcases inp with ⟨t, p⟩ | ⟨t, p⟩ | ⟨t, p⟩ | ⟨o, a, os, decls, p⟩ | ⟨sz, a, decls, p⟩
    · cases hc : c.size t <;> simp only [layout, hc] <;> exact sameAt_refl c k
    · cases hc : c.align t <;> simp only [layout, hc] <;> exact sameAt_refl c k
    · cases hc : c.offs t <;> simp only [layout, hc] <;> exact sameAt_refl c k
    · cases decls <;> simp only [layout] <;> exact sameAt_refl c k
    · cases decls <;> simp only [layout] <;> exact sameAt_refl c k
  | succ fuel ih =>
    intro inp c k hb
    rcases inp with ⟨t, p⟩ | ⟨t, p⟩ | ⟨t, p⟩ | ⟨o, a, os, decls, p⟩ | ⟨sz, a, decls, p⟩
    · -- size request
      simp only [lbound] at hb
      cases hc : c.size t with
      | some v =>
        cases t with
        | CArray b dm => cases dm <;> simp only [layout, hc] <;> exact sameAt_refl c k
        | _ => simp only [layout, hc]; exact sameAt_refl c k
      | none =>
        have hk : k ≠ t := fun he => by rw [he] at hb; exact absurd hb (lt_irrefl _)
        cases t with
        | CStruct nm decls =>
          have hbf : fsize decls < tsize k := by
            simp only [tsize] at hb; omega
          simp only [layout, hc]
          rcases hr : layout fuel (LIn.sfields 0 1 [] decls p) c with ⟨res, c1⟩
          have hS : SameAt c c1 k := by
            have := ih (LIn.sfields 0 1 [] decls p) c k hbf
            rw [hr] at this
            exact this
          cases res with
          | error e => exact hS
          | ok r =>
            cases r with
            | sacc o al os =>
              cases hm : pymod o al with
              | error e => simp only [hm]; exact hS
              | ok err =>
                simp only [hm]
                exact sameAt_trans hS (sameAt_trans (sameAt_updAlign hk)
                  (sameAt_trans (sameAt_updOffs hk) (sameAt_updSize hk)))
            | int w => exact hS
            | map m => exact hS
            | uacc x y => exact hS
        | CUnion nm decls =>
          have hbf : fsize decls < tsize k := by
            simp only [tsize] at hb; omega
          simp only [layout, hc]
          rcases hr : layout fuel (LIn.umembers 0 1 decls p) c with ⟨res, c1⟩
          have hS : SameAt c c1 k := by
            have := ih (LIn.umembers 0 1 decls p) c k hbf
            rw [hr] at this
            exact this
          cases res with
          | error e => exact hS
          | ok r =>
            cases r with
            | uacc usz ual =>
              dsimp only
              have hgoal : SameAt c
                  (updSize (updAlign c1 (CType.CUnion nm decls) ual)
                    (CType.CUnion nm decls) usz) k :=
                sameAt_trans hS
                  (sameAt_trans (sameAt_updAlign hk) (sameAt_updSize hk))
              by_cases hz : usz = 0
              · rw [if_pos hz]; exact hgoal
              · rw [if_neg hz]; exact hgoal
            | int w => exact hS
            | map m => exact hS
            | sacc x y z => exact hS
        | CArray base dim =>
          cases dim with
          | none => simp only [layout, hc]; exact sameAt_refl c k
          | some d =>
            have hbb : tsize base < tsize k := by
              simp only [tsize] at hb; omega
            simp only [layout, hc]
            rcases hr : layout fuel (LIn.align base 8) c with ⟨res, c1⟩
            have hS1 : SameAt c c1 k := by
              have := ih (LIn.align base 8) c k hbb
              rw [hr] at this
              exact this
            cases res with
            | error e => exact hS1
            | ok r =>
              cases r with
              | int av =>
                dsimp only
                rcases hr2 : layout fuel (LIn.size base 8)
                    (updAlign c1 (CArray base (some d)) av) with ⟨res2, c3⟩
                have hS2 : SameAt c c3 k := by
                  have := ih (LIn.size base 8) (updAlign c1 (CArray base (some d)) av) k hbb
                  rw [hr2] at this
                  exact sameAt_trans (sameAt_trans hS1 (sameAt_updAlign hk)) this
                cases res2 with
                | error e => exact hS2
                | ok r2 =>
                  cases r2 with
                  | int s =>
                    cases hm : pymod s av with
                    | error e => simp only [hm]; exact hS2
                    | ok rr =>
                      simp only [hm]
                      by_cases hrr : rr = 0
                      · rw [if_neg (by simpa using hrr)]
                        exact sameAt_trans hS2 (sameAt_updSize hk)
                      · rw [if_pos hrr]
                        exact hS2
                  | map m => exact hS2
                  | sacc x y z => exact hS2
                  | uacc x y => exact hS2
              | map m => exact hS1
              | sacc x y z => exact hS1
              | uacc x y => exact hS1
        | CVoid => simp only [layout, hc]; exact sameAt_refl c k
        | CSpecialType n => simp only [layout, hc]; exact sameAt_refl c k
        | CIntegral n u => simp only [layout, hc]; exact sameAt_refl c k
        | CFloatingPoint n => simp only [layout, hc]; exact sameAt_refl c k
        | COpaqueStruct n => simp only [layout, hc]; exact sameAt_refl c k
        | COpaqueUnion n => simp only [layout, hc]; exact sameAt_refl c k
        | CEnum n vs => simp only [layout, hc]; exact sameAt_refl c k
        | CFunc a r va => simp only [layout, hc]; exact sameAt_refl c k
        | CPointer b => simp only [layout, hc]; exact sameAt_refl c k
    · -- align request
      simp only [lbound] at hb
      cases hca : c.align t with
      | some a0 => simp only [layout, hca]; exact sameAt_refl c k
      | none =>
        simp only [layout, hca]
        rcases hr : layout fuel (LIn.size t p) c with ⟨res, c1⟩
        have hS : SameAt c c1 k := by
          have := ih (LIn.size t p) c k (by simpa [lbound] using hb)
          rw [hr] at this
          exact this
        cases res with
        | error e => exact hS
        | ok r => cases hc1 : c1.align t <;> simp only [hc1] <;> exact hS
    · -- offs request
      simp only [lbound] at hb
      cases hco : c.offs t with
      | some m => simp only [layout, hco]; exact sameAt_refl c k
      | none =>
        simp only [layout, hco]
        rcases hr : layout fuel (LIn.size t p) c with ⟨res, c1⟩
        have hS : SameAt c c1 k := by
          have := ih (LIn.size t p) c k (by simpa [lbound] using hb)
          rw [hr] at this
          exact this
        cases res with
        | error e => exact hS
        | ok r => cases hc1 : c1.offs t <;> simp only [hc1] <;> exact hS
    · -- sfields
      simp only [lbound] at hb
      cases decls with
      | nil => simp only [layout]; exact sameAt_refl c k
      | cons hd rest =>
        obtain ⟨name, ty⟩ := hd
        have hbt : tsize ty < tsize k := by simp only [fsize] at hb; omega
        have hbr : fsize rest < tsize k := by simp only [fsize] at hb; omega
        simp only [layout]
        rcases h1 : layout fuel (LIn.size ty 8) c with ⟨r1, c1⟩
        have hS1 : SameAt c c1 k := by
          have := ih (LIn.size ty 8) c k hbt
          rw [h1] at this
          exact this
        cases r1 with
        | error e => exact hS1
        | ok rr1 =>
          cases rr1 with
          | int e_s =>
            dsimp only
            rcases h2 : layout fuel (LIn.align ty 8) c1 with ⟨r2, c2⟩
            have hS2 : SameAt c c2 k := by
              have := ih (LIn.align ty 8) c1 k hbt
              rw [h2] at this
              exact sameAt_trans hS1 this
            cases r2 with
            | error e => exact hS2
            | ok rr2 =>
              cases rr2 with
              | int al_ty =>
                dsimp only
                cases hm : pymod o (min p al_ty) with
                | error e => simp only [hm]; exact hS2
                | ok err =>
                  simp only [hm]
                  cases name with
                  | some n =>
                    exact sameAt_trans hS2 (by
                      have := ih (LIn.sfields
                        ((if err ≠ 0 then o + (min p al_ty - err) else o) + e_s)
                        (if min p al_ty > a then min p al_ty else a)
                        (dictInsert os n (if err ≠ 0 then o + (min p al_ty - err) else o))
                        rest p) c2 k hbr
                      exact this)
                  | none =>
                    cases ty with
                    | CUnion unm uds =>
                      rcases h3 : layout fuel (LIn.offs (CUnion unm uds) 8) c2 with ⟨r3, c3⟩
                      have hS3 : SameAt c c3 k := by
                        have := ih (LIn.offs (CUnion unm uds) 8) c2 k hbt
                        rw [h3] at this
                        exact sameAt_trans hS2 this
                      cases r3 with
                      | error e => exact hS3
                      | ok rr3 =>
                        cases rr3 with
                        | map m => exact sameAt_trans hS3 (ih _ c3 k hbr)
                        | int w => exact hS3
                        | sacc x y z => exact hS3
                        | uacc x y => exact hS3
                    | CStruct snm sds =>
                      rcases h3 : layout fuel (LIn.offs (CStruct snm sds) 8) c2 with ⟨r3, c3⟩
                      have hS3 : SameAt c c3 k := by
                        have := ih (LIn.offs (CStruct snm sds) 8) c2 k hbt
                        rw [h3] at this
                        exact sameAt_trans hS2 this
                      cases r3 with
                      | error e => exact hS3
                      | ok rr3 =>
                        cases rr3 with
                        | map m => exact sameAt_trans hS3 (ih _ c3 k hbr)
                        | int w => exact hS3
                        | sacc x y z => exact hS3
                        | uacc x y => exact hS3
                    | CVoid => exact hS2
                    | CSpecialType n2 => exact hS2
                    | CIntegral n2 u2 => exact hS2
                    | CFloatingPoint n2 => exact hS2
                    | COpaqueStruct n2 => exact hS2
                    | COpaqueUnion n2 => exact hS2
                    | CArray b2 d2 => exact hS2
                    | CEnum n2 v2 => exact hS2
                    | CFunc a2 r2 va2 => exact hS2
                    | CPointer b2 => exact hS2
              | map m => exact hS2
              | sacc x y z => exact hS2
              | uacc x y => exact hS2
          | map m => exact hS1
          | sacc x y z => exact hS1
          | uacc x y => exact hS1
    · -- umembers
      simp only [lbound] at hb
      cases decls with
      | nil => simp only [layout]; exact sameAt_refl c k
      | cons hd rest =>
        obtain ⟨name, ty⟩ := hd
        have hbt : tsize ty < tsize k := by simp only [fsize] at hb; omega
        have hbr : fsize rest < tsize k := by simp only [fsize] at hb; omega
        simp only [layout]
        rcases h1 : layout fuel (LIn.size ty 8) c with ⟨r1, c1⟩
        have hS1 : SameAt c c1 k := by
          have := ih (LIn.size ty 8) c k hbt
          rw [h1] at this
          exact this
        cases r1 with
        | error e => exact hS1
        | ok rr1 =>
          cases rr1 with
          | int e_s =>
            dsimp only
            rcases h2 : layout fuel (LIn.align ty 8) c1 with ⟨r2, c2⟩
            have hS2 : SameAt c c2 k := by
              have := ih (LIn.align ty 8) c1 k hbt
              rw [h2] at this
              exact sameAt_trans hS1 this
            cases r2 with
            | error e => exact hS2
            | ok rr2 =>
              cases rr2 with
              | int al_ty => exact sameAt_trans hS2 (ih _ c2 k hbr)
              | map m => exact hS2
              | sacc x y z => exact hS2
              | uacc x y => exact hS2
          | map m => exact hS1
          | sacc x y z => exact hS1
          | uacc x y => exact hS1

/-- `Int.fmod s a = 0` exactly when `a` divides `s` (for any divisor,
including `0`). -/
theorem fmod_eq_zero_iff_dvd (s a : Int) : Int.fmod s a = 0 ↔ a ∣ s := by
  constructor
  · intro h
    refine ⟨s.fdiv a, ?_⟩
    have hd := Int.fmod_def s a
    omega
  · rintro ⟨k, rfl⟩
    exact Int.mul_fmod_right a k

/-- C5: `sizeof(CArray(base, None))` raises `ValueError`; for a known
dimension `n`, when `alignof(base)` yields `a ≠ 0` and `sizeof(base)`
yields `s`, the array's size is `s * n` and its cached alignment is `a`
(so `alignof` of the array returns `a` at any later point) exactly when
`a` divides `s`, and the size computation raises `ValueError` when it
does not. -/
theorem C5_array_layout :
    (∀ (fuel : Nat) (base : CType) (c : Caches),
      c.size (CType.CArray base none) = none →
      (sizeof (fuel + 1) c (CType.CArray base none) 8).1 =
        .error .valueError) ∧
    (∀ (fuel : Nat) (base : CType) (n : Int) (c c1 c2 : Caches) (a s : Int),
      c.size (CType.CArray base (some n)) = none →
      alignof fuel c base 8 = (.ok a, c1) →
      sizeof fuel (updAlign c1 (CType.CArray base (some n)) a) base 8 =
        (.ok s, c2) →
      a ≠ 0 →
      ((a ∣ s →
        sizeof (fuel + 1) c (CType.CArray base (some n)) 8 =
          (.ok (s * n),
            updSize c2 (CType.CArray base (some n)) (s * n)) ∧
        ∀ fuel', alignof fuel'
            (updSize c2 (CType.CArray base (some n)) (s * n))
            (CType.CArray base (some n)) 8 =
          (.ok a, updSize c2 (CType.CArray base (some n)) (s * n))) ∧
       (¬ a ∣ s →
        (sizeof (fuel + 1) c (CType.CArray base (some n)) 8).1 =
          .error .valueError))) := by
  constructor
  · intro fuel base c hmiss
    simp only [sizeof, layout, hmiss]
  · intro fuel base n c c1 c2 a s hmiss halign hsize ha
    rcases hl1 : layout fuel (LIn.align base 8) c with ⟨r1, d1⟩
    simp only [alignof] at halign
    rw [hl1] at halign
    have hl1' : layout fuel (LIn.align base 8) c = (.ok (.int a), c1) := by
      cases r1 with
      | error e => simp at halign
      | ok rr =>
        cases rr with
        | int v =>
          dsimp only at halign
          simp only [Prod.mk.injEq, Except.ok.injEq] at halign
          rw [halign.1, halign.2] at hl1
          exact hl1
        | map m => simp at halign
        | sacc x y z => simp at halign
        | uacc x y => simp at halign
    rcases hl2 : layout fuel (LIn.size base 8)
        (updAlign c1 (CType.CArray base (some n)) a) with ⟨r2, d2⟩
    simp only [sizeof] at hsize
    rw [hl2] at hsize
    have hl2' : layout fuel (LIn.size base 8)
        (updAlign c1 (CType.CArray base (some n)) a) = (.ok (.int s), c2) := by
      cases r2 with
      | error e => simp at hsize
      | ok rr =>
        cases rr with
        | int v =>
          dsimp only at hsize
          simp only [Prod.mk.injEq, Except.ok.injEq] at hsize
          rw [hsize.1, hsize.2] at hl2
          exact hl2
        | map m => simp at hsize
        | sacc x y z => simp at hsize
        | uacc x y => simp at hsize
    have hmod : pymod s a = .ok (Int.fmod s a) := by
      simp [pymod, ha]
    have harr : layout (fuel + 1)
        (LIn.size (CType.CArray base (some n)) 8) c =
        (if Int.fmod s a ≠ 0
         then (.error .valueError, c2)
         else (.ok (.int (s * n)),
           updSize c2 (CType.CArray base (some n)) (s * n))) := by
      simp only [layout, hmiss, hl1']
      rw [hl2']
      simp only [hmod]
    have halignt : c2.align (CType.CArray base (some n)) = some a := by
      have h := layout_local fuel (LIn.size base 8)
        (updAlign c1 (CType.CArray base (some n)) a)
        (CType.CArray base (some n)) (by simp [lbound, tsize])
      rw [hl2'] at h
      rw [h.2.1]
      simp [updAlign]
    constructor
    · intro hdvd
      have hz : Int.fmod s a = 0 := (fmod_eq_zero_iff_dvd s a).mpr hdvd
      constructor
      · simp only [sizeof, harr, hz]
        simp
      · intro fuel'
        have hhit : (updSize c2 (CType.CArray base (some n)) (s * n)).align
            (CType.CArray base (some n)) = some a := halignt
        simp only [alignof,
          layout_align_hit fuel' (CType.CArray base (some n)) 8 _ a hhit]
    · intro hdvd
      have hz : Int.fmod s a ≠ 0 := fun h =>
        hdvd ((fmod_eq_zero_iff_dvd s a).mp h)
      simp only [sizeof, harr, hz]
      simp [hz]

/-- Witness for C5 at `int[3]` on the LP64 host: the known-dimension part
applies with `a = 4`, `s = 4`, `4 ∣ 4`, giving size `12` and alignment
`4`; the unknown-dimension part gives `ValueError` for `int[]`. -/
theorem C5_array_layout_witness :
    (sizeof 1 (initCaches hostLP64) (CType.CArray c_sint (some 3)) 8).1 =
      .ok 12 ∧
    (sizeof 1 (initCaches hostLP64) (CType.CArray c_sint none) 8).1 =
      .error .valueError := by
  constructor
  · have h := (C5_array_layout.2 0 c_sint 3 (initCaches hostLP64)
      (initCaches hostLP64)
      (updAlign (initCaches hostLP64) (CType.CArray c_sint (some 3)) 4)
      4 4 (by decide) rfl rfl (by decide)).1 (by decide)
    rw [h.1]
    rfl
  · exact C5_array_layout.1 0 c_sint (initCaches hostLP64) (by decide)

/-- The source's running-maximum update written with `max`. -/
theorem if_gt_eq_max (a b : Int) : (if b > a then b else a) = max a b := by
  rcases lt_or_ge a b with h | h
  · rw [if_pos h]
    exact (max_eq_right h.le).symm
  · rw [if_neg (not_lt.mpr h)]
    exact (max_eq_left h).symm

/-- The `.umembers` loop of `layout` computes the running maxima of the
member sizes and of the pack-capped member alignments over
`memberLayouts`. -/
theorem umembers_spec :
    ∀ (fuel : Nat) (decls : List (Option String × CType))
      (sz al pack : Int) (c : Caches),
      layout fuel (.umembers sz al decls pack) c =
        (Except.map
          (fun l => LRes.uacc
            (l.foldl (fun acc p => max acc p.1) sz)
            (l.foldl (fun acc p => max acc (min pack p.2)) al))
          (memberLayouts fuel decls c).1,
         (memberLayouts fuel decls c).2) := by
  intro fuel
  induction fuel with
  | zero =>
    intro decls sz al pack c
    cases decls with
    | nil => simp [layout, memberLayouts, Except.map]
    | cons hd rest => simp [layout, memberLayouts, Except.map]
  | succ fuel ih =>
    intro decls sz al pack c
    cases decls with
    | nil => simp [layout, memberLayouts, Except.map]
    | cons hd rest =>
      obtain ⟨name, ty⟩ := hd
      simp only [layout, memberLayouts]
      rcases h1 : layout fuel (LIn.size ty 8) c with ⟨r1, c1⟩
      cases r1 with
      | error e => rfl
      | ok rr1 =>
        cases rr1 with
        | int s =>
          dsimp only
          rcases h2 : layout fuel (LIn.align ty 8) c1 with ⟨r2, c2⟩
          cases r2 with
          | error e => rfl
          | ok rr2 =>
            cases rr2 with
            | int a =>
              dsimp only
              rw [ih rest (if s > sz then s else sz)
                (if min pack a > al then min pack a else al) pack c2]
              rcases h3 : memberLayouts fuel rest c2 with ⟨r3, c3⟩
              cases r3 with
              | error e => rfl
              | ok l =>
                dsimp only [Except.map]
                rw [if_gt_eq_max sz s, if_gt_eq_max al (min pack a)]
                rfl
            | map m => rfl
            | sacc x y z => rfl
            | uacc x y => rfl
        | map m => rfl
        | sacc x y z => rfl
        | uacc x y => rfl

/-- C4 counterexample: `offsetsof` on a well-formed one-member union
raises `NotImplementedError` instead of reporting offset 0 for the
member, and a zero-size (empty) union fails only on the *first* `sizeof`
call — the zero size is cached before the assertion, so a second call
returns 0. -/
theorem C4_counterexample :
    (offsetsof 20 (initCaches hostLP64)
      (CType.CUnion (some "u") [(some "x", c_sint)]) 8).1 =
      .error .notImplementedError ∧
    (sizeof 2 (initCaches hostLP64) (CType.CUnion (some "e") []) 8).1 =
      .error .assertionError ∧
    (sizeof 0
      (sizeof 2 (initCaches hostLP64) (CType.CUnion (some "e") []) 8).2
      (CType.CUnion (some "e") []) 8).1 = .ok 0 := by
  refine ⟨?_, ?_, ?_⟩ <;> rfl

/-- One step of the `.offs` row of `layout` on a cache miss. -/
theorem layout_offs_step (n : Nat) (t : CType) (p : Int) (c : Caches)
    (h : c.offs t = none) :
    layout (n + 1) (.offs t p) c =
      match layout n (.size t p) c with
      | (.error e, c1) => (.error e, c1)
      | (.ok _, c1) =>
        match c1.offs t with
        | some m => (.ok (.map m), c1)
        | none => (.error .notImplementedError, c1) := by
  simp only [layout, h]

/-- C4 (amended): for an uncached union, `sizeof` walks the members
accumulating the maximum member size `S` and the maximum pack-capped
member alignment `A`, caches `A` then `S`, and raises `AssertionError`
exactly when `S = 0`; because `S` is cached before the assertion, every
later `sizeof` call returns `S` (even `0`) and `alignof` returns `A`;
member offsets are never stored, so `offsetsof` on the union errors
(`AssertionError` the first time if `S = 0`, `NotImplementedError`
otherwise). -/
theorem C4_amended :
    ∀ (fuel : Nat) (nm : Option String)
      (decls : List (Option String × CType)) (pack : Int)
      (c c' : Caches) (l : List (Int × Int)) (S A : Int),
      c.size (CType.CUnion nm decls) = none →
      memberLayouts fuel decls c = (.ok l, c') →
      S = l.foldl (fun acc p => max acc p.1) 0 →
      A = l.foldl (fun acc p => max acc (min pack p.2)) 1 →
      (sizeof (fuel + 1) c (CType.CUnion nm decls) pack =
        ((if S = 0 then .error .assertionError else .ok S),
         updSize (updAlign c' (CType.CUnion nm decls) A)
           (CType.CUnion nm decls) S)) ∧
      (∀ (fuel' : Nat) (pack' : Int),
        sizeof fuel'
          (updSize (updAlign c' (CType.CUnion nm decls) A)
            (CType.CUnion nm decls) S)
          (CType.CUnion nm decls) pack' =
        (.ok S,
         updSize (updAlign c' (CType.CUnion nm decls) A)
           (CType.CUnion nm decls) S)) ∧
      (∀ (fuel' : Nat) (pack' : Int),
        alignof fuel'
          (updSize (updAlign c' (CType.CUnion nm decls) A)
            (CType.CUnion nm decls) S)
          (CType.CUnion nm decls) pack' =
        (.ok A,
         updSize (updAlign c' (CType.CUnion nm decls) A)
           (CType.CUnion nm decls) S)) ∧
      (c.offs (CType.CUnion nm decls) = none →
        (offsetsof (fuel + 1 + 1) c (CType.CUnion nm decls) pack).1 =
          .error (if S = 0 then .assertionError else .notImplementedError)) := by
  intro fuel nm decls pack c c' l S A hmiss hml hS hA
  have humem : layout fuel (LIn.umembers 0 1 decls pack) c =
      (.ok (.uacc S A), c') := by
    rw [umembers_spec fuel decls 0 1 pack c, hml, hS, hA]
    rfl
  have hsizet :
      (updSize (updAlign c' (CType.CUnion nm decls) A)
        (CType.CUnion nm decls) S).size (CType.CUnion nm decls) = some S := by
    simp [updSize]
  have haligt :
      (updSize (updAlign c' (CType.CUnion nm decls) A)
        (CType.CUnion nm decls) S).align (CType.CUnion nm decls) = some A := by
    simp [updSize, updAlign]
  have hsz1 : layout (fuel + 1) (LIn.size (CType.CUnion nm decls) pack) c =
      ((if S = 0 then .error .assertionError else .ok (.int S)),
       updSize (updAlign c' (CType.CUnion nm decls) A)
         (CType.CUnion nm decls) S) := by
    simp only [layout, hmiss, humem]
    by_cases h0 : S = 0
    · rw [if_pos h0, if_pos h0]
    · rw [if_neg h0, if_neg h0]
  refine ⟨?_, ?_, ?_, ?_⟩
  · simp only [sizeof, hsz1]
    by_cases h0 : S = 0
    · simp [h0]
    · simp [h0]
  · intro fuel' pack'
    simp only [sizeof,
      layout_size_hit fuel' (CType.CUnion nm decls) pack' _ S hsizet]
  · intro fuel' pack'
    simp only [alignof,
      layout_align_hit fuel' (CType.CUnion nm decls) pack' _ A haligt]
  · intro hoffs
    have hloc : SameAt c c' (CType.CUnion nm decls) := by
      have h := layout_local fuel (LIn.umembers 0 1 decls pack) c
        (CType.CUnion nm decls) (by simp only [lbound, tsize]; omega)
      rw [humem] at h
      exact h
    have hoffc' : c'.offs (CType.CUnion nm decls) = none := by
      rw [hloc.2.2]
      exact hoffs
    have hoffc'' :
        (updSize (updAlign c' (CType.CUnion nm decls) A)
          (CType.CUnion nm decls) S).offs (CType.CUnion nm decls) = none := by
      simp only [updSize, updAlign]
      exact hoffc'
    simp only [offsetsof]
    rw [layout_offs_step (fuel + 1) (CType.CUnion nm decls) pack c hoffs, hsz1]
    by_cases h0 : S = 0
    · rw [if_pos h0, if_pos h0]
    · rw [if_neg h0, if_neg h0]
      dsimp only
      rw [hoffc'']

/-- Witness for C4 (amended) at `union { int x; char y; }` on the LP64
host: `S = 4`, `A = 4`, so `sizeof` returns 4 and `offsetsof` raises
`NotImplementedError`. -/
theorem C4_amended_witness :
    (sizeof 3 (initCaches hostLP64)
      (CType.CUnion (some "u") [(some "x", c_sint), (some "y", c_schar)])
      8).1 = .ok 4 ∧
    (offsetsof 4 (initCaches hostLP64)
      (CType.CUnion (some "u") [(some "x", c_sint), (some "y", c_schar)])
      8).1 = .error .notImplementedError := by
  have h := C4_amended 2 (some "u") [(some "x", c_sint), (some "y", c_schar)]
    8 (initCaches hostLP64) (initCaches hostLP64) [(4, 4), (1, 1)] 4 4
    (by decide) rfl (by decide) (by decide)
  constructor
  · show (sizeof (2 + 1) (initCaches hostLP64)
      (CType.CUnion (some "u") [(some "x", c_sint), (some "y", c_schar)])
      8).1 = .ok 4
    rw [h.1]
    rfl
  · show (offsetsof (2 + 1 + 1) (initCaches hostLP64)
      (CType.CUnion (some "u") [(some "x", c_sint), (some "y", c_schar)])
      8).1 = .error .notImplementedError
    rw [h.2.2.2 (by decide)]
    rfl

/-- The accumulated alignment of the struct walk never decreases. -/
theorem structWalk_al_le :
    ∀ (pack : Int) (l : List (Option String × Int × Int × List (String × Int)))
      (off al : Int) (offs : List (String × Int)),
      al ≤ (structWalk pack off al offs l).2.2.1 := by
  intro pack l
  induction l with
  | nil => intro off al offs; simp [structWalk]
  | cons x l ih =>
    obtain ⟨name, e_s, al_ty, m⟩ := x
    intro off al offs
    simp only [structWalk]
    refine le_trans ?_ (ih _ _ _)
    by_cases hgt : min pack al_ty > al
    · rw [if_pos hgt]; exact le_of_lt hgt
    · rw [if_neg hgt]

/-- A field's position is a multiple of its effective alignment. -/
theorem placeOf_aligned (pack off al_ty : Int) :
    Int.fmod (placeOf pack off al_ty) (min pack al_ty) = 0 := by
  simp only [placeOf]
  by_cases herr : Int.fmod off (min pack al_ty) ≠ 0
  · rw [if_pos herr]
    refine (fmod_eq_zero_iff_dvd _ _).mpr ⟨off.fdiv (min pack al_ty) + 1, ?_⟩
    have h5 := Int.fmod_add_fdiv off (min pack al_ty)
    rw [Int.mul_add, Int.mul_one]
    omega
  · rw [if_neg herr]
    simpa using herr

/-- Rounding up never moves a position backwards (for a positive
effective alignment). -/
theorem placeOf_ge (pack off al_ty : Int) (h : 0 < min pack al_ty) :
    off ≤ placeOf pack off al_ty := by
  simp only [placeOf]
  by_cases herr : Int.fmod off (min pack al_ty) ≠ 0
  · rw [if_pos herr]
    have h1 := Int.fmod_lt_of_pos off h
    omega
  · rw [if_neg herr]

/-- The `.sfields` loop of `layout` computes exactly the pure struct walk
over the per-field layout data (when every field's effective alignment is
nonzero, so the alignment modulus never divides by zero). -/
theorem sfields_spec :
    ∀ (fuel : Nat) (decls : List (Option String × CType))
      (off al : Int) (offs : List (String × Int)) (pack : Int) (c : Caches)
      (l : List (Option String × Int × Int × List (String × Int))) (c' : Caches),
      fieldLayouts fuel decls c = (.ok l, c') →
      (∀ x ∈ l, min pack x.2.2.1 ≠ 0) →
      layout fuel (.sfields off al offs decls pack) c =
        (.ok (.sacc (structWalk pack off al offs l).2.1
                    (structWalk pack off al offs l).2.2.1
                    (structWalk pack off al offs l).2.2.2), c') := by
  intro fuel
  induction fuel with
  | zero =>
    intro decls off al offs pack c l c' hml hea
    cases decls with
    | nil =>
      simp only [fieldLayouts, Prod.mk.injEq, Except.ok.injEq] at hml
      obtain ⟨hl, hc⟩ := hml
      subst hc
      subst hl
      simp [layout, structWalk]
    | cons hd rest => simp [fieldLayouts] at hml
  | succ fuel ih =>
    intro decls off al offs pack c l c' hml hea
    cases decls with
    | nil =>
      simp only [fieldLayouts, Prod.mk.injEq, Except.ok.injEq] at hml
      obtain ⟨hl, hc⟩ := hml
      subst hc
      subst hl
      simp [layout, structWalk]
    | cons hd rest =>
      obtain ⟨name, ty⟩ := hd
      simp only [fieldLayouts] at hml
      rcases h1 : layout fuel (LIn.size ty 8) c with ⟨r1, c1⟩
      rw [h1] at hml
      cases r1 with
      | error e => simp at hml
      | ok rr1 =>
        cases rr1 with
        | int e_s =>
          dsimp only at hml
          rcases h2 : layout fuel (LIn.align ty 8) c1 with ⟨r2, c2⟩
          rw [h2] at hml
          cases r2 with
          | error e => simp at hml
          | ok rr2 =>
            cases rr2 with
            | int al_ty =>
              dsimp only at hml
              cases name with
              | some n =>
                rcases h3 : fieldLayouts fuel rest c2 with ⟨r3, c3⟩
                rw [h3] at hml
                cases r3 with
                | error e => simp at hml
                | ok lrest =>
                  dsimp only at hml
                  simp only [Prod.mk.injEq, Except.ok.injEq] at hml
                  obtain ⟨hl, hc⟩ := hml
                  subst hc
                  subst hl
                  have hne : min pack al_ty ≠ 0 := by
                    have := hea (some n, e_s, al_ty, []) (by simp)
                    simpa using this
                  have hpm : pymod off (min pack al_ty) =
                      .ok (Int.fmod off (min pack al_ty)) := by
                    simp [pymod, hne]
                  simp only [layout]
                  rw [h1]
                  dsimp only
                  rw [h2]
                  dsimp only
                  rw [hpm]
                  dsimp only
                  rw [ih rest
                    ((if Int.fmod off (min pack al_ty) ≠ 0
                      then off + (min pack al_ty - Int.fmod off (min pack al_ty))
                      else off) + e_s)
                    (if min pack al_ty > al then min pack al_ty else al)
                    (dictInsert offs n
                      (if Int.fmod off (min pack al_ty) ≠ 0
                       then off + (min pack al_ty - Int.fmod off (min pack al_ty))
                       else off))
                    pack c2 lrest c3 h3
                    (fun x hx => hea x (List.mem_cons_of_mem _ hx))]
                  simp only [structWalk, placeOf]
              | none =>
                dsimp only at hml
                cases ty with
                | CUnion unm uds =>
                  rcases h3 : layout fuel (LIn.offs (CType.CUnion unm uds) 8) c2
                    with ⟨r3, c3⟩
                  rw [h3] at hml
                  cases r3 with
                  | error e => simp at hml
                  | ok rr3 =>
                    cases rr3 with
                    | map m =>
                      dsimp only at hml
                      rcases h4 : fieldLayouts fuel rest c3 with ⟨r4, c4⟩
                      rw [h4] at hml
                      cases r4 with
                      | error e => simp at hml
                      | ok lrest =>
                        dsimp only at hml
                        simp only [Prod.mk.injEq, Except.ok.injEq] at hml
                        obtain ⟨hl, hc⟩ := hml
                        subst hc
                        subst hl
                        have hne : min pack al_ty ≠ 0 := by
                          have := hea (none, e_s, al_ty, m) (by simp)
                          simpa using this
                        have hpm : pymod off (min pack al_ty) =
                            .ok (Int.fmod off (min pack al_ty)) := by
                          simp [pymod, hne]
                        simp only [layout]
                        rw [h1]
                        dsimp only
                        rw [h2]
                        dsimp only
                        rw [hpm]
                        dsimp only
                        rw [h3]
                        dsimp only
                        rw [ih rest
                          ((if Int.fmod off (min pack al_ty) ≠ 0
                            then off + (min pack al_ty - Int.fmod off (min pack al_ty))
                            else off) + e_s)
                          (if min pack al_ty > al then min pack al_ty else al)
                          (m.foldl (fun acc p => dictInsert acc p.1
                            ((if Int.fmod off (min pack al_ty) ≠ 0
                              then off + (min pack al_ty - Int.fmod off (min pack al_ty))
                              else off) + p.2)) offs)
                          pack c3 lrest c4 h4
                          (fun x hx => hea x (List.mem_cons_of_mem _ hx))]
                        simp only [structWalk, placeOf]
                    | int w => simp at hml
                    | sacc x y z => simp at hml
                    | uacc x y => simp at hml
                | CStruct snm sds =>
                  rcases h3 : layout fuel (LIn.offs (CType.CStruct snm sds) 8) c2
                    with ⟨r3, c3⟩
                  rw [h3] at hml
                  cases r3 with
                  | error e => simp at hml
                  | ok rr3 =>
                    cases rr3 with
                    | map m =>
                      dsimp only at hml
                      rcases h4 : fieldLayouts fuel rest c3 with ⟨r4, c4⟩
                      rw [h4] at hml
                      cases r4 with
                      | error e => simp at hml
                      | ok lrest =>
                        dsimp only at hml
                        simp only [Prod.mk.injEq, Except.ok.injEq] at hml
                        obtain ⟨hl, hc⟩ := hml
                        subst hc
                        subst hl
                        have hne : min pack al_ty ≠ 0 := by
                          have := hea (none, e_s, al_ty, m) (by simp)
                          simpa using this
                        have hpm : pymod off (min pack al_ty) =
                            .ok (Int.fmod off (min pack al_ty)) := by
                          simp [pymod, hne]
                        simp only [layout]
                        rw [h1]
                        dsimp only
                        rw [h2]
                        dsimp only
                        rw [hpm]
                        dsimp only
                        rw [h3]
                        dsimp only
                        rw [ih rest
                          ((if Int.fmod off (min pack al_ty) ≠ 0
                            then off + (min pack al_ty - Int.fmod off (min pack al_ty))
                            else off) + e_s)
                          (if min pack al_ty > al then min pack al_ty else al)
                          (m.foldl (fun acc p => dictInsert acc p.1
                            ((if Int.fmod off (min pack al_ty) ≠ 0
                              then off + (min pack al_ty - Int.fmod off (min pack al_ty))
                              else off) + p.2)) offs)
                          pack c3 lrest c4 h4
                          (fun x hx => hea x (List.mem_cons_of_mem _ hx))]
                        simp only [structWalk, placeOf]
                    | int w => simp at hml
                    | sacc x y z => simp at hml
                    | uacc x y => simp at hml
                | CVoid => simp at hml
                | CSpecialType n2 => simp at hml
                | CIntegral n2 u2 => simp at hml
                | CFloatingPoint n2 => simp at hml
                | COpaqueStruct n2 => simp at hml
                | COpaqueUnion n2 => simp at hml
                | CArray b2 d2 => simp at hml
                | CEnum n2 v2 => simp at hml
                | CFunc a2 r2 va2 => simp at hml
                | CPointer b2 => simp at hml
            | map m => simp at hml
            | sacc x y z => simp at hml
            | uacc x y => simp at hml
        | map m => simp at hml
        | sacc x y z => simp at hml
        | uacc x y => simp at hml

/-- Every field position produced by the struct walk is a multiple of
that field's effective alignment `min pack al_ty`. -/
theorem structWalk_aligned :
    ∀ (pack : Int) (l : List (Option String × Int × Int × List (String × Int)))
      (off al : Int) (offs : List (String × Int)),
      List.Forall₂ (fun place x => Int.fmod place (min pack x.2.2.1) = 0)
        (structWalk pack off al offs l).1 l := by
  intro pack l
  induction l with
  | nil => intro off al offs; simp [structWalk]
  | cons x l ih =>
    obtain ⟨name, e_s, al_ty, m⟩ := x
    intro off al offs
    simp only [structWalk]
    exact List.Forall₂.cons (placeOf_aligned pack off al_ty) (ih _ _ _)

/-- Consecutive field positions of the struct walk satisfy
`place + size ≤ next place` (fields never overlap), provided every
effective alignment is positive. -/
theorem structWalk_chain :
    ∀ (pack : Int) (l : List (Option String × Int × Int × List (String × Int)))
      (off al : Int) (offs : List (String × Int)),
      (∀ x ∈ l, 0 < min pack x.2.2.1) →
      List.Chain' (fun a b => a.1 + a.2.2.1 ≤ b.1)
        ((structWalk pack off al offs l).1.zip l) := by
  intro pack l
  induction l with
  | nil => intro off al offs h; simp [structWalk]
  | cons x xs ih =>
    obtain ⟨name, e_s, al_ty, m⟩ := x
    intro off al offs h
    cases xs with
    | nil => simp [structWalk]
    | cons y ys =>
      obtain ⟨yname, y_es, y_al, ym⟩ := y
      cases name with
      | some nm0 =>
        have hih := ih (placeOf pack off al_ty + e_s)
          (if min pack al_ty > al then min pack al_ty else al)
          (dictInsert offs nm0 (placeOf pack off al_ty))
          (fun z hz => h z (List.mem_cons_of_mem _ hz))
        simp only [structWalk, List.zip_cons_cons] at hih ⊢
        rw [List.chain'_cons]
        refine ⟨?_, hih⟩
        exact placeOf_ge pack (placeOf pack off al_ty + e_s) y_al
          (h (yname, y_es, y_al, ym) (by simp))
      | none =>
        have hih := ih (placeOf pack off al_ty + e_s)
          (if min pack al_ty > al then min pack al_ty else al)
          (m.foldl
            (fun acc p => dictInsert acc p.1 (placeOf pack off al_ty + p.2))
            offs)
          (fun z hz => h z (List.mem_cons_of_mem _ hz))
        simp only [structWalk, List.zip_cons_cons] at hih ⊢
        rw [List.chain'_cons]
        refine ⟨?_, hih⟩
        exact placeOf_ge pack (placeOf pack off al_ty + e_s) y_al
          (h (yname, y_es, y_al, ym) (by simp))

/-- C1: layout of a struct whose fields all have defined layout walks the
fields in declaration order: `sizeof` equals the pure struct walk over the
per-field data (final offset rounded up to the accumulated maximum
effective alignment, zero forced to 1, with alignment and offsets map —
named fields at their position, unnamed aggregates translated by the
running offset — cached); every field position is a multiple of
`min pack alignof(field)`; consecutive positions satisfy
`place + size ≤ next place`; and concretely `struct { char a; int b; }`
at pack 8 on the LP64 host has offsets `a = 0`, `b = 4`, size 8,
alignment 4. -/
theorem C1_struct_layout :
    (∀ (fuel : Nat) (nm : Option String)
       (decls : List (Option String × CType)) (pack : Int) (c c' : Caches)
       (l : List (Option String × Int × Int × List (String × Int))),
       c.size (CType.CStruct nm decls) = none →
       fieldLayouts fuel decls c = (.ok l, c') →
       (∀ x ∈ l, min pack x.2.2.1 ≠ 0) →
       sizeof (fuel + 1) c (CType.CStruct nm decls) pack =
         (.ok (structFinish (structWalk pack 0 1 [] l).2.1
                            (structWalk pack 0 1 [] l).2.2.1),
          updSize
            (updOffs
              (updAlign c' (CType.CStruct nm decls)
                (structWalk pack 0 1 [] l).2.2.1)
              (CType.CStruct nm decls) (structWalk pack 0 1 [] l).2.2.2)
            (CType.CStruct nm decls)
            (structFinish (structWalk pack 0 1 [] l).2.1
                          (structWalk pack 0 1 [] l).2.2.1))) ∧
    (∀ (pack off al : Int) (offs : List (String × Int))
       (l : List (Option String × Int × Int × List (String × Int))),
       List.Forall₂ (fun place x => Int.fmod place (min pack x.2.2.1) = 0)
         (structWalk pack off al offs l).1 l) ∧
    (∀ (pack off al : Int) (offs : List (String × Int))
       (l : List (Option String × Int × Int × List (String × Int))),
       (∀ x ∈ l, 0 < min pack x.2.2.1) →
       List.Chain' (fun a b => a.1 + a.2.2.1 ≤ b.1)
         ((structWalk pack off al offs l).1.zip l)) ∧
    ((sizeof 3 (initCaches hostLP64) structCharInt 8).1 = .ok 8 ∧
     (alignof 4 (initCaches hostLP64) structCharInt 8).1 = .ok 4 ∧
     (offsetsof 4 (initCaches hostLP64) structCharInt 8).1 =
       .ok [("a", 0), ("b", 4)]) := by
  refine ⟨?_, ?_, ?_, rfl, rfl, rfl⟩
  · intro fuel nm decls pack c c' l hmiss hml hea
    have hsf := sfields_spec fuel decls 0 1 [] pack c l c' hml hea
    have hAL : (1 : Int) ≤ (structWalk pack 0 1 [] l).2.2.1 :=
      structWalk_al_le pack l 0 1 []
    have hALne : (structWalk pack 0 1 [] l).2.2.1 ≠ 0 := by omega
    have hpm : pymod (structWalk pack 0 1 [] l).2.1
        (structWalk pack 0 1 [] l).2.2.1 =
        .ok (Int.fmod (structWalk pack 0 1 [] l).2.1
          (structWalk pack 0 1 [] l).2.2.1) := by
      simp [pymod, hALne]
    simp only [sizeof, layout, hmiss]
    rw [hsf]
    dsimp only
    rw [hpm]
    dsimp only
    simp only [structFinish]
  · intro pack off al offs l
    exact structWalk_aligned pack l off al offs
  · intro pack off al offs l h
    exact structWalk_chain pack l off al offs h

/-- Witness for C1 at `struct { char a; int b; }` on the LP64 host: the
general size equation applies with the per-field data
`[(a, 1, 1), (b, 4, 4)]` and yields size 8; the position properties hold
at that data. -/
theorem C1_struct_layout_witness :
    ((sizeof (2 + 1) (initCaches hostLP64)
        (CType.CStruct (some "S") [(some "a", c_schar), (some "b", c_sint)])
        8).1 = .ok 8) ∧
    List.Forall₂ (fun place x => Int.fmod place (min 8 x.2.2.1) = 0)
      (structWalk 8 0 1 []
        [(some "a", (1 : Int), (1 : Int), ([] : List (String × Int))),
         (some "b", 4, 4, [])]).1
      [(some "a", (1 : Int), (1 : Int), ([] : List (String × Int))),
       (some "b", 4, 4, [])] ∧
    List.Chain' (fun a b => a.1 + a.2.2.1 ≤ b.1)
      ((structWalk 8 0 1 []
        [(some "a", (1 : Int), (1 : Int), ([] : List (String × Int))),
         (some "b", 4, 4, [])]).1.zip
       [(some "a", (1 : Int), (1 : Int), ([] : List (String × Int))),
        (some "b", 4, 4, [])]) := by
  refine ⟨?_, ?_, ?_⟩
  · rw [C1_struct_layout.1 2 (some "S") [(some "a", c_schar), (some "b", c_sint)]
      8 (initCaches hostLP64) (initCaches hostLP64)
      [(some "a", (1 : Int), (1 : Int), ([] : List (String × Int))),
       (some "b", 4, 4, [])]
      (by decide) rfl (by decide)]
    rfl
  · exact C1_struct_layout.2.1 8 0 1 []
      [(some "a", (1 : Int), (1 : Int), ([] : List (String × Int))),
       (some "b", 4, 4, [])]
  · exact C1_struct_layout.2.2.1 8 0 1 []
      [(some "a", (1 : Int), (1 : Int), ([] : List (String × Int))),
       (some "b", 4, 4, [])]
      (by decide)
